import Mathlib

/-!
# Verification of the lolite flex layout engine

A shallow embedding of `crates/lolite/src/flex_layout.rs` (the flexbox-style
layout core) together with theorems settling the specification claims.

Lengths are modelled as exact rationals (the Rust code uses `f64`, but every
operation involved is field arithmetic, `max`, and comparisons, so the ideal
arithmetic semantics is the rational one).

The style data model and the two external collaborators (`Style::merge` from
`style.rs` and `LayoutContext::layout_node` from `layout.rs`) are not part of
the provided sources; they are modelled from the spec where indicated.
-/

namespace Lolite

/-- `display` property values. Modelled from the spec: `style.rs` is not part of
the provided sources; the spec only needs to distinguish flex containers. -/
inductive Display where
  | Flex
  | Block
  deriving DecidableEq, Repr

/-- `flex-direction` values (`src/crates/lolite/src/style.rs`, used by
`flex_layout.rs`). -/
inductive FlexDirection where
  | Row
  | RowReverse
  | Column
  | ColumnReverse
  deriving DecidableEq, Repr

/-- `flex-wrap` values. -/
inductive FlexWrap where
  | NoWrap
  | Wrap
  | WrapReverse
  deriving DecidableEq, Repr

/-- `justify-content` values. -/
inductive JustifyContent where
  | FlexStart
  | FlexEnd
  | Center
  | SpaceBetween
  | SpaceAround
  | SpaceEvenly
  deriving DecidableEq, Repr

/-- `align-items` values. -/
inductive AlignItems where
  | FlexStart
  | FlexEnd
  | Center
  | Baseline
  | Stretch
  deriving DecidableEq, Repr

/-- `align-self` values. -/
inductive AlignSelf where
  | Auto
  | FlexStart
  | FlexEnd
  | Center
  | Baseline
  | Stretch
  deriving DecidableEq, Repr

/-- CSS lengths. `Px` is an explicit pixel length (the only case
`matches!(_, Some(Length::Px(_)))` accepts); `Other` stands for any other
concrete unit, carrying its already-converted pixel value; `Auto` is the
keyword `auto`. -/
inductive Length where
  | Auto
  | Px (v : ℚ)
  | Other (px : ℚ)
  deriving DecidableEq, Repr

/-- `Length::to_px`. Modelled from the spec: all lengths are abstract pixel
units; `auto` carries no length (its `to_px` is only ever consulted behind
positivity filters, so `0` is a faithful stand-in). -/
def Length.toPx : Length → ℚ
  | .Auto => 0
  | .Px v => v
  | .Other px => px

/-- Per-side padding lengths. -/
structure Padding where
  top : Length
  right : Length
  bottom : Length
  left : Length
  deriving DecidableEq, Repr

/-- The optional-valued style property bag (spec §3; `style.rs` is not in the
provided sources, fields are the ones `flex_layout.rs` consumes). Absence
means "unset — apply the documented default". -/
structure Style where
  display : Option Display := none
  flex_direction : Option FlexDirection := none
  flex_wrap : Option FlexWrap := none
  justify_content : Option JustifyContent := none
  align_items : Option AlignItems := none
  align_self : Option AlignSelf := none
  order : Option Int := none
  flex_grow : Option ℚ := none
  flex_shrink : Option ℚ := none
  flex_basis : Option Length := none
  width : Option Length := none
  height : Option Length := none
  gap : Option Length := none
  row_gap : Option Length := none
  column_gap : Option Length := none
  padding : Option Padding := none
  border_width : Option Length := none
  deriving DecidableEq, Repr

/-- A box's geometry. -/
structure Rect where
  x : ℚ
  y : ℚ
  width : ℚ
  height : ℚ
  deriving DecidableEq, Repr

/-- The mutable per-box layout record: `bounds` plus the cached resolved
style (`node.layout` in the Rust tree). -/
structure LayoutRecord where
  bounds : Rect
  style : Style
  deriving DecidableEq, Repr

/-- A box in the tree: ordered children (parent-owned), optional text payload,
string attributes, and the layout record. -/
inductive Node where
  | mk (children : List Node) (text : Option String)
       (attributes : List (String × String)) (layout : LayoutRecord)

/-- The ordered children of a node. -/
def Node.children : Node → List Node
  | .mk c _ _ _ => c

/-- The optional text payload of a node. -/
def Node.text : Node → Option String
  | .mk _ t _ _ => t

/-- The attribute key/value pairs of a node. -/
def Node.attributes : Node → List (String × String)
  | .mk _ _ a _ => a

/-- The layout record of a node. -/
def Node.layout : Node → LayoutRecord
  | .mk _ _ _ l => l

/-- Replace the layout record of a node. -/
def Node.withLayout : Node → LayoutRecord → Node
  | .mk c t a _, l => .mk c t a l

/-- Replace the children list of a node. -/
def Node.withChildren : Node → List Node → Node
  | .mk _ t a l, c => .mk c t a l

/-- Class selectors (`crate::style::Selector::Class`). -/
inductive Selector where
  | Class (name : String)
  deriving DecidableEq, Repr

/-- A single style declaration: one property with its value. Modelled from the
spec: `style.rs` is not in the provided sources; a declaration sets exactly
one property of the bag (last-matching-rule-wins). -/
inductive Declaration where
  | displayDecl (v : Display)
  | flexDirectionDecl (v : FlexDirection)
  | flexWrapDecl (v : FlexWrap)
  | justifyContentDecl (v : JustifyContent)
  | alignItemsDecl (v : AlignItems)
  | alignSelfDecl (v : AlignSelf)
  | orderDecl (v : Int)
  | flexGrowDecl (v : ℚ)
  | flexShrinkDecl (v : ℚ)
  | flexBasisDecl (v : Length)
  | widthDecl (v : Length)
  | heightDecl (v : Length)
  | gapDecl (v : Length)
  | rowGapDecl (v : Length)
  | columnGapDecl (v : Length)
  | paddingDecl (v : Padding)
  | borderWidthDecl (v : Length)
  deriving DecidableEq, Repr

/-- `Style::merge(declaration)`. Modelled from the spec: merging a declaration
overwrites the corresponding property of the bag (spec §6: "last-matching-rule
-wins per rule list order"). -/
def Style.merge (s : Style) : Declaration → Style
  | .displayDecl v => { s with display := some v }
  | .flexDirectionDecl v => { s with flex_direction := some v }
  | .flexWrapDecl v => { s with flex_wrap := some v }
  | .justifyContentDecl v => { s with justify_content := some v }
  | .alignItemsDecl v => { s with align_items := some v }
  | .alignSelfDecl v => { s with align_self := some v }
  | .orderDecl v => { s with order := some v }
  | .flexGrowDecl v => { s with flex_grow := some v }
  | .flexShrinkDecl v => { s with flex_shrink := some v }
  | .flexBasisDecl v => { s with flex_basis := some v }
  | .widthDecl v => { s with width := some v }
  | .heightDecl v => { s with height := some v }
  | .gapDecl v => { s with gap := some v }
  | .rowGapDecl v => { s with row_gap := some v }
  | .columnGapDecl v => { s with column_gap := some v }
  | .paddingDecl v => { s with padding := some v }
  | .borderWidthDecl v => { s with border_width := some v }

/-- A stylesheet rule: a selector plus declarations. -/
structure Rule where
  selector : Selector
  declarations : List Declaration
  deriving DecidableEq, Repr

/-- A stylesheet is an ordered list of rules (`ctx.style_sheet.rules`). -/
abbrev Sheet := List Rule

/-- Attribute lookup (`node.attributes.get(key)`). -/
def getAttr (n : Node) (key : String) : Option String :=
  (n.attributes.find? (fun p => p.1 == key)).map (fun p => p.2)

/-- Rust `str::trim`, modelled on the character list (the Lean core `trim`
is not kernel-computable): drop leading and trailing whitespace. -/
def strTrim (s : String) : String :=
  ⟨((s.data.dropWhile Char.isWhitespace).reverse.dropWhile Char.isWhitespace).reverse⟩

/-- Worker for `splitWhitespace`: the accumulator holds the current
non-whitespace run in reverse. -/
def splitWhitespaceChars : List Char → List Char → List String
  | acc, [] => if acc.isEmpty then [] else [⟨acc.reverse⟩]
  | acc, c :: cs =>
    if c.isWhitespace then
      (if acc.isEmpty then [] else [⟨acc.reverse⟩]) ++ splitWhitespaceChars [] cs
    else splitWhitespaceChars (c :: acc) cs

/-- Rust `str::split_whitespace`, modelled on the character list: the maximal
non-whitespace runs, in order. -/
def splitWhitespace (s : String) : List String :=
  splitWhitespaceChars [] s.data

/-- The class-rule application loop of `resolve_style`
(`flex_layout.rs:573-587`): for each class name in the `class` attribute, find
the first rule with that class selector and merge its declarations in order. -/
def applyClassRules (sheet : Sheet) (classAttr : String) (style : Style) : Style :=
  (splitWhitespace classAttr).foldl
    (fun st className =>
      match sheet.find? (fun rule => rule.selector == Selector.Class className) with
      | some rule => rule.declarations.foldl Style.merge st
      | none => st)
    style

/-- `resolve_style(node, ctx, fallback)` (`flex_layout.rs:566-595`): start from
the node's cached style, merge class-selector rules, and for anonymous-looking
nodes (no attributes, no children) inherit `display` from the fallback. -/
def resolveStyle (sheet : Sheet) (fallback : Style) (node : Node) : Style :=
  let style := node.layout.style
  let style :=
    match getAttr node "class" with
    | some classAttr => applyClassRules sheet classAttr style
    | none => style
  if node.attributes.isEmpty && node.children.isEmpty then
    { style with display := fallback.display }
  else style

/-- The logical axis (`flex_layout.rs:397-401`). -/
inductive Axis where
  | Main
  | Cross
  deriving DecidableEq, Repr

/-- `is_definite_container_content_box_size` (`flex_layout.rs:403-422`): the
axis-mapped style dimension is not explicitly `auto`. -/
def isDefiniteContainerContentBoxSize (style : Style) (direction : FlexDirection)
    (axis : Axis) : Bool :=
  match direction, axis with
  | .Row, .Main | .RowReverse, .Main => !(style.width == some Length.Auto)
  | .Row, .Cross | .RowReverse, .Cross => !(style.height == some Length.Auto)
  | .Column, .Main | .ColumnReverse, .Main => !(style.height == some Length.Auto)
  | .Column, .Cross | .ColumnReverse, .Cross => !(style.width == some Length.Auto)

/-- `axis_padding_sum_px` (`flex_layout.rs:447-462`). -/
def axisPaddingSumPx (style : Style) (direction : FlexDirection) (axis : Axis) : ℚ :=
  match style.padding with
  | none => 0
  | some p =>
    match direction, axis with
    | .Row, .Main | .RowReverse, .Main
    | .Column, .Cross | .ColumnReverse, .Cross => p.left.toPx + p.right.toPx
    | .Row, .Cross | .RowReverse, .Cross
    | .Column, .Main | .ColumnReverse, .Main => p.top.toPx + p.bottom.toPx

/-- `axis_border_sum_px` (`flex_layout.rs:464-468`): a single uniform border
width counted twice. -/
def axisBorderSumPx (style : Style) : ℚ :=
  match style.border_width with
  | some w => w.toPx * 2
  | none => 0

/-- `determine_available_space` (`flex_layout.rs:424-445`). -/
def determineAvailableSpace (containerAxisSize : ℚ) (style : Style)
    (direction : FlexDirection) (axis : Axis) : ℚ :=
  if isDefiniteContainerContentBoxSize style direction axis then containerAxisSize
  else max (containerAxisSize - axisPaddingSumPx style direction axis - axisBorderSumPx style) 0

/-- `cross_size_is_auto` (`flex_layout.rs:503-508`). -/
def crossSizeIsAuto (style : Style) (direction : FlexDirection) : Bool :=
  match direction with
  | .Row | .RowReverse => style.height.isNone
  | .Column | .ColumnReverse => style.width.isNone

/-- `gaps_px` (`flex_layout.rs:510-519`): `(row_gap, column_gap)`. -/
def gapsPx (style : Style) : ℚ × ℚ :=
  match style.gap with
  | some gap => (gap.toPx, gap.toPx)
  | none =>
    (((style.row_gap.map Length.toPx).getD 0), ((style.column_gap.map Length.toPx).getD 0))

/-- `justify_offsets` (`flex_layout.rs:521-564`): start offset and inter-item
gap for the six justify modes, with `FlexStart`/`FlexEnd` swapped for
reversed directions. -/
def justifyOffsets (justify : JustifyContent) (direction : FlexDirection)
    (leftover baseGap : ℚ) (itemCount : Nat) : ℚ × ℚ :=
  if itemCount = 0 then (0, baseGap)
  else
    let isReverse :=
      match direction with
      | .RowReverse | .ColumnReverse => true
      | .Row | .Column => false
    let justify :=
      match isReverse, justify with
      | true, .FlexStart => JustifyContent.FlexEnd
      | true, .FlexEnd => JustifyContent.FlexStart
      | _, j => j
    match justify with
    | .FlexStart => (0, baseGap)
    | .FlexEnd => (leftover, baseGap)
    | .Center => (leftover / 2, baseGap)
    | .SpaceBetween =>
      if itemCount ≤ 1 then (0, baseGap)
      else (0, baseGap + leftover / ((itemCount : ℚ) - 1))
    | .SpaceAround =>
      let extra := leftover / (itemCount : ℚ)
      (extra / 2, baseGap + extra)
    | .SpaceEvenly =>
      let extra := leftover / ((itemCount : ℚ) + 1)
      (extra, baseGap + extra)

/-- `Option::filter(|v| *v > 0.0)` on a pixel value. -/
def posFilter (o : Option ℚ) : Option ℚ :=
  match o with
  | some v => if 0 < v then some v else none
  | none => none

/-- `intrinsic_main_from_children` (`flex_layout.rs:470-501`): best-effort
intrinsic main size — the maximum over the node's children of each child's
resolved axis-mapped length, defaulting to 100 (row main) or 30 (column main)
when unset; `0` for an empty children list. -/
def intrinsicMainFromChildren (node : Node) (parentDirection : FlexDirection)
    (sheet : Sheet) (fallback : Style) : ℚ :=
  let children := node.children
  if children.isEmpty then 0
  else
    let isRowMain :=
      match parentDirection with
      | .Row | .RowReverse => true
      | .Column | .ColumnReverse => false
    (children.map (fun c =>
      let s := resolveStyle sheet fallback c
      if isRowMain then (s.width.map Length.toPx).getD 100
      else (s.height.map Length.toPx).getD 30)).foldl max 0

/-- The defaulted physical width (`flex_layout.rs:345-353`): explicit positive
width, else the 100 placeholder. -/
def physicalWidth (style : Style) : ℚ :=
  (posFilter (style.width.map Length.toPx)).getD 100

/-- The defaulted physical height (`flex_layout.rs:346-354`): explicit positive
height, else the 30 placeholder. -/
def physicalHeight (style : Style) : ℚ :=
  (posFilter (style.height.map Length.toPx)).getD 30

/-- Whether the axis-mapped style dimension is an explicit pixel length
(`flex_layout.rs:372-379`). -/
def hasExplicitMain (style : Style) (direction : FlexDirection) : Bool :=
  match direction with
  | .Row | .RowReverse =>
    match style.width with
    | some (Length.Px _) => true
    | _ => false
  | .Column | .ColumnReverse =>
    match style.height with
    | some (Length.Px _) => true
    | _ => false

/-- Whether the axis-mapped main size falls back to the 100×30 placeholder
(`flex_layout.rs:383-386`): the explicit-positive-filtered option is `none`. -/
def mainWasDefault (style : Style) (direction : FlexDirection) : Bool :=
  match direction with
  | .Row | .RowReverse => (posFilter (style.width.map Length.toPx)).isNone
  | .Column | .ColumnReverse => (posFilter (style.height.map Length.toPx)).isNone

/-- The axis-mapped defaulted physical main size (`main_from_size`,
`flex_layout.rs:356-359`). -/
def mainFromPhysical (style : Style) (direction : FlexDirection) : ℚ :=
  match direction with
  | .Row | .RowReverse => physicalWidth style
  | .Column | .ColumnReverse => physicalHeight style

/-- `base_sizes_for_item` (`flex_layout.rs:336-395`): flex base main size and
cross size of an item. -/
def baseSizesForItem (node : Node) (style : Style) (direction : FlexDirection)
    (sheet : Sheet) : ℚ × ℚ :=
  let width := physicalWidth style
  let height := physicalHeight style
  let (mainFromSize, crossFromSize) :=
    match direction with
    | .Row | .RowReverse => (width, height)
    | .Column | .ColumnReverse => (height, width)
  let main :=
    match style.flex_basis with
    | some (Length.Px px) => px
    | some Length.Auto => mainFromSize
    | some (Length.Other px) => px
    | none => mainFromSize
  let isContainer := !node.children.isEmpty
  let main :=
    if isContainer && !hasExplicitMain style direction && style.flex_basis.isNone then
      let intrinsic := intrinsicMainFromChildren node direction sheet style
      if decide (0 < intrinsic) && mainWasDefault style direction then intrinsic else main
    else main
  (main, crossFromSize)

/-- The engine-internal per-item record (`flex_layout.rs:326-334`), extended
with the index of the underlying node in the container's original children
list (standing in for the `Rc` pointer identity used for write-back). -/
structure FlexItem where
  nodeIdx : Nat
  node : Node
  style : Style
  base_main : ℚ
  base_cross : ℚ
  final_main : ℚ
  final_cross : ℚ

/-- The `order` sort key of a child (`flex_layout.rs:84-87`). -/
def orderKey (sheet : Sheet) (containerStyle : Style) (n : Node) : Int :=
  (resolveStyle sheet containerStyle n).order.getD 0

/-- Insert into a key-sorted list, before the first element of strictly larger
or equal key position such that stability is kept (earlier-inserted elements
of equal key stay in front: we insert before the first element whose key is
not smaller). -/
def insertSorted (key : Node → Int) (x : Nat × Node) :
    List (Nat × Node) → List (Nat × Node)
  | [] => [x]
  | y :: ys =>
    if key y.2 < key x.2 then y :: insertSorted key x ys
    else x :: y :: ys

/-- Stable sort by `order` key (`children.sort_by_key`, `flex_layout.rs:84-87`;
Rust's slice sort is stable). -/
def sortByOrder (key : Node → Int) (l : List (Nat × Node)) : List (Nat × Node) :=
  l.foldr (insertSorted key) []

/-- The "text node" heuristic (`flex_layout.rs:91-96`): a text payload, no
attributes, no children. -/
def isTextNodeGuess (n : Node) : Bool :=
  n.text.isSome && n.attributes.isEmpty && n.children.isEmpty

/-- The anonymous-item filtering rule (`flex_layout.rs:98-104`): a text node
whose trimmed text is empty is not rendered. -/
def isDroppedWhitespaceText (n : Node) : Bool :=
  isTextNodeGuess n && (strTrim (n.text.getD "")).data.isEmpty

/-- The flex item collection loop (`flex_layout.rs:89-127`): drop
whitespace-only text children, resolve the style of the survivors and compute
their base sizes. -/
def collectItems (sheet : Sheet) (containerStyle : Style) (direction : FlexDirection)
    (sorted : List (Nat × Node)) : List FlexItem :=
  sorted.filterMap (fun p =>
    if isDroppedWhitespaceText p.2 then none
    else
      let style := resolveStyle sheet containerStyle p.2
      let sizes := baseSizesForItem p.2 style direction sheet
      some { nodeIdx := p.1, node := p.2, style := style,
             base_main := sizes.1, base_cross := sizes.2,
             final_main := sizes.1, final_cross := sizes.2 })

/-- Main-axis total of a list of sizes with the main gap added before every
element after the first (the indexed folds at `flex_layout.rs:165-168` and
`flex_layout.rs:245-248`). -/
def totalMainWithGaps (mainGap : ℚ) : List ℚ → ℚ
  | [] => 0
  | x :: xs => xs.foldl (fun acc v => acc + mainGap + v) x

/-- The line-formation fold state (`flex_layout.rs:134-136`). -/
structure LineState where
  lines : List (List FlexItem)
  current : List FlexItem
  currentUsedMain : ℚ

/-- One step of the line-formation loop (`flex_layout.rs:140-154`). -/
def lineStep (canWrap : Bool) (availableMain mainGap : ℚ) (st : LineState)
    (item : FlexItem) : LineState :=
  let additionalGap := if st.current.isEmpty then 0 else mainGap
  let candidateUsed := st.currentUsedMain + additionalGap + item.base_main
  let shouldWrap := canWrap && !st.current.isEmpty && decide (availableMain < candidateUsed)
  let st :=
    if shouldWrap then
      { lines := st.lines ++ [st.current], current := [], currentUsedMain := 0 }
    else st
  let gap := if st.current.isEmpty then 0 else mainGap
  { lines := st.lines, current := st.current ++ [item],
    currentUsedMain := st.currentUsedMain + gap + item.base_main }

/-- Flex line formation (`flex_layout.rs:133-157`). -/
def formLines (canWrap : Bool) (availableMain mainGap : ℚ)
    (items : List FlexItem) : List (List FlexItem) :=
  let st := items.foldl (lineStep canWrap availableMain mainGap) ⟨[], [], 0⟩
  if st.current.isEmpty then st.lines else st.lines ++ [st.current]

/-- An item's grow factor (`flex-grow`, default 0). -/
def growFactor (it : FlexItem) : ℚ :=
  it.style.flex_grow.getD 0

/-- An item's shrink weight (`flex_layout.rs:186-193`): `flex-shrink`
(default 0, "don't shrink") times the base main size. -/
def shrinkWeight (it : FlexItem) : ℚ :=
  (it.style.flex_shrink.getD 0) * it.base_main

/-- The per-line flex resolution (`flex_layout.rs:164-203`): distribute
positive free space by grow factors, negative free space by shrink weights;
a zero total weight leaves every item at its base size. -/
def resolveLineMain (availableMain mainGap : ℚ) (line : List FlexItem) : List FlexItem :=
  let totalBaseMain := totalMainWithGaps mainGap (line.map (fun it => it.base_main))
  let freeSpace := availableMain - totalBaseMain
  if 0 < freeSpace then
    let totalGrow := (line.map growFactor).sum
    if 0 < totalGrow then
      line.map (fun it =>
        { it with final_main := it.base_main + freeSpace * (growFactor it / totalGrow) })
    else line
  else if freeSpace < 0 then
    let shrinkNeeded := -freeSpace
    let totalWeight := (line.map shrinkWeight).sum
    if 0 < totalWeight then
      line.map (fun it =>
        { it with final_main := it.base_main - shrinkNeeded * (shrinkWeight it / totalWeight) })
    else line
  else line

/-- The item-derived line cross size (`flex_layout.rs:206-209`): running `max`
over the items' current cross sizes, starting from `0.0`. -/
def lineMaxCross (line : List FlexItem) : ℚ :=
  (line.map (fun it => it.final_cross)).foldl max 0

/-- The cross size actually used for a line (`flex_layout.rs:205-219`): the
container's available cross space for a single-line container with definite
cross size, else the item-derived max. -/
def lineCrossSizeUsed (singleDefinite : Bool) (availableCross : ℚ)
    (line : List FlexItem) : ℚ :=
  if singleDefinite then availableCross else lineMaxCross line

/-- The per-item effective alignment (`flex_layout.rs:222-235`): `align-self`
with `Auto` mapping to the container's `align-items`. -/
def effectiveAlign (alignItems : AlignItems) (it : FlexItem) : AlignItems :=
  match it.style.align_self.getD AlignSelf.Auto with
  | .Auto => alignItems
  | .FlexStart => .FlexStart
  | .FlexEnd => .FlexEnd
  | .Center => .Center
  | .Baseline => .Baseline
  | .Stretch => .Stretch

/-- The stretch pass (`flex_layout.rs:222-242`): an item whose effective
alignment is `Stretch` and whose cross-axis style dimension is unset takes
the line's cross size. -/
def applyStretch (alignItems : AlignItems) (direction : FlexDirection)
    (lineCrossSize : ℚ) (line : List FlexItem) : List FlexItem :=
  line.map (fun it =>
    if effectiveAlign alignItems it == AlignItems.Stretch
        && crossSizeIsAuto it.style direction then
      { it with final_cross := lineCrossSize }
    else it)

/-- The cross-axis position of an item within its line
(`flex_layout.rs:266-274`). Note the source dispatches on the container's
`align_items`, not on the per-item effective alignment. -/
def crossPos (alignItems : AlignItems) (lineCrossOffset lineCrossSize : ℚ)
    (it : FlexItem) : ℚ :=
  match alignItems with
  | .FlexStart | .Baseline | .Stretch => lineCrossOffset
  | .FlexEnd => lineCrossOffset + (lineCrossSize - it.final_cross)
  | .Center => lineCrossOffset + (lineCrossSize - it.final_cross) / 2

/-- The physical rectangle of an item (`flex_layout.rs:276-289`): main/cross
coordinates mapped to x/width, y/height per direction. -/
def physicalRect (direction : FlexDirection) (containerX containerY cursorMain crossP : ℚ)
    (it : FlexItem) : Rect :=
  match direction with
  | .Row | .RowReverse =>
    ⟨containerX + cursorMain, containerY + crossP, it.final_main, it.final_cross⟩
  | .Column | .ColumnReverse =>
    ⟨containerX + crossP, containerY + cursorMain, it.final_cross, it.final_main⟩

/-- The per-item write/recurse/override sequence (`flex_layout.rs:291-316`):
write the flex-resolved bounds and resolved style, recursively lay out the
subtree at that position, then re-apply width/height and the resolved style
(leaving the position the recursion produced). -/
def applyItemWrites (recurse : Node → ℚ → ℚ → Node) (it : FlexItem) (r : Rect) : Node :=
  let n1 := it.node.withLayout { bounds := r, style := it.style }
  let n2 := recurse n1 r.x r.y
  n2.withLayout
    { bounds := { n2.layout.bounds with width := r.width, height := r.height },
      style := it.style }

/-- The item placement loop of one line (`flex_layout.rs:259-319`): walk the
main-axis cursor, adding the between-gap before every item after the first,
and produce the (original child index, updated node) pairs. -/
def placeLine (recurse : Node → ℚ → ℚ → Node) (direction : FlexDirection)
    (alignItems : AlignItems) (containerX containerY : ℚ)
    (lineCrossOffset lineCrossSize betweenGap : ℚ) :
    ℚ → List FlexItem → List (Nat × Node)
  | _, [] => []
  | cursorMain, it :: rest =>
    let cp := crossPos alignItems lineCrossOffset lineCrossSize it
    let r := physicalRect direction containerX containerY cursorMain cp it
    (it.nodeIdx, applyItemWrites recurse it r) ::
      placeLine recurse direction alignItems containerX containerY
        lineCrossOffset lineCrossSize betweenGap
        (cursorMain + it.final_main + betweenGap) rest

/-- The whole per-line computation (`flex_layout.rs:163-319`): flex
resolution, line cross size, stretch, justify offsets, and placement. Returns
the child updates and the line cross size (the caller advances the running
cross offset by it plus the cross gap, `flex_layout.rs:321`). -/
def processLine (recurse : Node → ℚ → ℚ → Node) (direction : FlexDirection)
    (alignItems : AlignItems) (justify : JustifyContent)
    (availableMain mainGap : ℚ) (singleDefinite : Bool) (availableCross : ℚ)
    (containerX containerY lineCrossOffset : ℚ) (line : List FlexItem) :
    List (Nat × Node) × ℚ :=
  let line := resolveLineMain availableMain mainGap line
  let lineCrossSize := lineCrossSizeUsed singleDefinite availableCross line
  let line := applyStretch alignItems direction lineCrossSize line
  let lineUsedMain := totalMainWithGaps mainGap (line.map (fun it => it.final_main))
  let leftover := max (availableMain - lineUsedMain) 0
  let offsets := justifyOffsets justify direction leftover mainGap line.length
  (placeLine recurse direction alignItems containerX containerY
      lineCrossOffset lineCrossSize offsets.2 offsets.1 line,
   lineCrossSize)

/-- Write the updated child nodes back at their original indices (standing in
for the Rust mutation through the shared `Rc` pointers). -/
def updatesApply (children : List Node) (updates : List (Nat × Node)) : List Node :=
  updates.foldl (fun cs u => cs.set u.1 u.2) children

/-- `FlexLayoutEngine::layout_flex_children` (`flex_layout.rs:19-323`) with the
recursive layout callback abstracted as a parameter (the role of
`ctx.layout_node`): collect items, form lines, and lay each line out,
returning the container with its direct children's layout records updated. -/
def layoutFlexChildrenWith (recurse : Node → ℚ → ℚ → Node) (sheet : Sheet)
    (containerStyle : Style) (container : Node) : Node :=
  let direction := containerStyle.flex_direction.getD FlexDirection.Row
  let wrap := containerStyle.flex_wrap.getD FlexWrap.NoWrap
  let justify := containerStyle.justify_content.getD JustifyContent.FlexStart
  let alignItems := containerStyle.align_items.getD AlignItems.Stretch
  let b := container.layout.bounds
  let frame :=
    match direction with
    | .Row | .RowReverse => (b.x, b.y, b.width, b.height)
    | .Column | .ColumnReverse => (b.x, b.y, b.height, b.width)
  let availableMain := determineAvailableSpace frame.2.2.1 containerStyle direction Axis.Main
  let availableCross := determineAvailableSpace frame.2.2.2 containerStyle direction Axis.Cross
  let gaps := gapsPx containerStyle
  let axisGaps :=
    match direction with
    | .Row | .RowReverse => (gaps.2, gaps.1)
    | .Column | .ColumnReverse => (gaps.1, gaps.2)
  let sorted := sortByOrder (orderKey sheet containerStyle) container.children.enum
  let items := collectItems sheet containerStyle direction sorted
  if items.isEmpty then container
  else
    let canWrap :=
      match wrap with
      | .Wrap | .WrapReverse => true
      | .NoWrap => false
    let lines := formLines canWrap availableMain axisGaps.1 items
    let singleDefinite :=
      decide (lines.length = 1)
        && isDefiniteContainerContentBoxSize containerStyle direction Axis.Cross
    let result := lines.foldl
      (fun (acc : List (Nat × Node) × ℚ) line =>
        let processed := processLine recurse direction alignItems justify
          availableMain axisGaps.1 singleDefinite availableCross
          frame.1 frame.2.1 acc.2 line
        (acc.1 ++ processed.1, acc.2 + processed.2 + axisGaps.2))
      ([], 0)
    container.withChildren (updatesApply container.children result.1)

/-- Set only the position of a node's bounds. -/
def setPos (n : Node) (x y : ℚ) : Node :=
  n.withLayout { n.layout with bounds := { n.layout.bounds with x := x, y := y } }

/-- Size a leaf box from its style. Modelled from the spec: `layout.rs` is not
in the provided sources; per §6 the callback sizes leaves from their declared
style (the flex parent overrides this afterwards), here with the engine's
100×30 placeholder for unset dimensions. -/
def sizeLeafFromStyle (n : Node) : Node :=
  n.withLayout
    { n.layout with
      bounds := { n.layout.bounds with
                  width := physicalWidth n.layout.style,
                  height := physicalHeight n.layout.style } }

/-- Modelled from the spec: `LayoutContext::layout_node` (`layout.rs`, not in
the provided sources). Per §6 it lays the box's subtree out in place at the
given position, honoring any width/height already present when the box is a
container, sizing leaves from their style, and re-entering the flex pipeline
for nested flex containers. Recursion is bounded by the fuel, which exceeds
the tree depth in every run. -/
def layoutNode (sheet : Sheet) : Nat → Node → ℚ → ℚ → Node
  | 0, n, x, y => setPos n x y
  | fuel + 1, n, x, y =>
    let n := setPos n x y
    if n.children.isEmpty then sizeLeafFromStyle n
    else if n.layout.style.display == some Display.Flex then
      layoutFlexChildrenWith (layoutNode sheet fuel) sheet n.layout.style n
    else n

/-- One full layout pass over a container (`layout_flex_children` with the
real recursive callback). -/
def layoutFlexChildren (fuel : Nat) (sheet : Sheet) (containerStyle : Style)
    (container : Node) : Node :=
  layoutFlexChildrenWith (layoutNode sheet fuel) sheet containerStyle container

/-- The cross-axis position as the spec's sentence on §4.6 alignment reads:
dispatching on the item's *effective* alignment (`align-self` with `Auto`
mapping to the container's `align-items`). Stated for comparison with
`crossPos`, which is what the source computes. -/
def specCrossPos (alignItems : AlignItems) (lineCrossOffset lineCrossSize : ℚ)
    (it : FlexItem) : ℚ :=
  match effectiveAlign alignItems it with
  | .FlexStart | .Baseline | .Stretch => lineCrossOffset
  | .FlexEnd => lineCrossOffset + (lineCrossSize - it.final_cross)
  | .Center => lineCrossOffset + (lineCrossSize - it.final_cross) / 2

/-- The shrink-to-fit replacement value as the spec's sentence reads: the
maximum over the item's children of each child's axis-mapped *physical size*
(§4.3: explicit positive length, else the 100×30 placeholder), resolved with
the item's style as fallback. Stated for comparison with
`intrinsicMainFromChildren`, which is what the source computes. -/
def specIntrinsicMainFromChildren (node : Node) (parentDirection : FlexDirection)
    (sheet : Sheet) (fallback : Style) : ℚ :=
  let isRowMain :=
    match parentDirection with
    | .Row | .RowReverse => true
    | .Column | .ColumnReverse => false
  (node.children.map (fun c =>
    let s := resolveStyle sheet fallback c
    if isRowMain then physicalWidth s else physicalHeight s)).foldl max 0

/-- Counterexample input for the alignment-position claim: a single child with
`align-self: flex-start` inside a definite 200×100 container whose
`align-items` is `flex-end`. -/
def cexAlignChild : Node :=
  Node.mk [] none []
    ⟨⟨0, 0, 0, 0⟩,
     { width := some (Length.Px 50), height := some (Length.Px 40),
       align_self := some AlignSelf.FlexStart }⟩

/-- The container style for `cexAlignChild`'s counterexample. -/
def cexAlignStyle : Style :=
  { display := some Display.Flex, width := some (Length.Px 200),
    height := some (Length.Px 100), align_items := some AlignItems.FlexEnd }

/-- The container for the alignment-position counterexample. -/
def cexAlignContainer : Node :=
  Node.mk [cexAlignChild] none [] ⟨⟨0, 0, 200, 100⟩, cexAlignStyle⟩

/-- The flex item the collector produces for `cexAlignChild`. -/
def cexAlignItem : FlexItem :=
  { nodeIdx := 0, node := cexAlignChild,
    style := resolveStyle [] cexAlignStyle cexAlignChild,
    base_main := 50, base_cross := 40, final_main := 50, final_cross := 40 }

/-- Counterexample input for the shrink-to-fit claim: a nested container with
two children of explicit widths 0 and 40 and no own main size. -/
def cexIntrinsicNode : Node :=
  Node.mk
    [Node.mk [] none [("id", "a")] ⟨⟨0, 0, 0, 0⟩, { width := some (Length.Px 0) }⟩,
     Node.mk [] none [("id", "b")] ⟨⟨0, 0, 0, 0⟩, { width := some (Length.Px 40) }⟩]
    none [("id", "c")] ⟨⟨0, 0, 0, 0⟩, {}⟩

/-- The last value a declaration list assigns through the field extractor
`f`, if any (used to characterize repeated merging). -/
def lastVal {β : Type} (f : Declaration → Option β) (L : List Declaration) : Option β :=
  L.foldl (fun acc d => match f d with | some v => some v | none => acc) none

/-- The declarations the class-rule loop of `resolve_style` applies for a
list of class names, concatenated in application order. -/
def classDecls (sheet : Sheet) : List String → List Declaration
  | [] => []
  | cn :: rest =>
    (match sheet.find? (fun rule => rule.selector == Selector.Class cn) with
     | some rule => rule.declarations
     | none => []) ++ classDecls sheet rest

/-- Two flex items agreeing on everything the scalar pipeline reads: index,
resolved style, and the four derived sizes (the underlying node may differ). -/
def ViewEq (a b : FlexItem) : Prop :=
  a.nodeIdx = b.nodeIdx ∧ a.style = b.style ∧ a.base_main = b.base_main ∧
  a.base_cross = b.base_cross ∧ a.final_main = b.final_main ∧
  a.final_cross = b.final_cross

/-- Node equivalence for everything a later layout pass reads of a child:
same text, same attributes, same number of children, style resolving
identically under every fallback, and children resolving identically under
every fallback. -/
def ResolveEquiv (sheet : Sheet) (n n' : Node) : Prop :=
  n'.text = n.text ∧ n'.attributes = n.attributes ∧
  n'.children.length = n.children.length ∧
  (∀ fb, resolveStyle sheet fb n' = resolveStyle sheet fb n) ∧
  List.Forall₂ (fun g g' => ∀ fb, resolveStyle sheet fb g' = resolveStyle sheet fb g)
    n.children n'.children

/-- Recursive characterization of line formation (equal to `formLines`, see
`formLines_eq_go`): `current` is the line being accumulated. -/
def formLinesGo (canWrap : Bool) (availableMain mainGap : ℚ)
    (current : List FlexItem) : List FlexItem → List (List FlexItem)
  | [] => if current.isEmpty then [] else [current]
  | item :: rest =>
    if canWrap && !current.isEmpty
        && decide (availableMain
          < totalMainWithGaps mainGap (current.map (fun it => it.base_main))
            + mainGap + item.base_main) then
      current :: formLinesGo canWrap availableMain mainGap [item] rest
    else formLinesGo canWrap availableMain mainGap (current ++ [item]) rest

/-- The line-closing condition between two consecutive emitted lines:
wrapping is enabled and the next line's first item (with its preceding gap)
would have pushed the previous line past the available main space. -/
def lineBreakCond (canWrap : Bool) (availableMain mainGap : ℚ)
    (l₁ l₂ : List FlexItem) : Prop :=
  canWrap = true ∧ ∃ hd t, l₂ = hd :: t ∧
    availableMain
      < totalMainWithGaps mainGap (l₁.map (fun it => it.base_main))
        + mainGap + hd.base_main

/-- No admissible break point strictly inside an emitted line: for every item
after the first, adding it (with its preceding gap) did not overflow the
available main space while wrapping was enabled. -/
def NoMidBreak (canWrap : Bool) (availableMain mainGap : ℚ)
    (l : List FlexItem) : Prop :=
  ∀ (k : Nat) (hk : k < l.length), 0 < k →
    ¬ (canWrap = true ∧
        availableMain
          < totalMainWithGaps mainGap ((l.take k).map (fun it => it.base_main))
            + mainGap + (l.get ⟨k, hk⟩).base_main)

/-- The container's flex direction (`flex_layout.rs:34`). -/
def passDirection (cs : Style) : FlexDirection :=
  cs.flex_direction.getD FlexDirection.Row

/-- Whether line breaking is enabled (`flex_layout.rs:138`). -/
def passCanWrap (cs : Style) : Bool :=
  match cs.flex_wrap.getD FlexWrap.NoWrap with
  | .Wrap | .WrapReverse => true
  | .NoWrap => false

/-- The direction-mapped frame `(x, y, main, cross)` (`flex_layout.rs:41-49`). -/
def passFrame (cs : Style) (c : Node) : ℚ × ℚ × ℚ × ℚ :=
  match passDirection cs with
  | .Row | .RowReverse =>
    (c.layout.bounds.x, c.layout.bounds.y, c.layout.bounds.width, c.layout.bounds.height)
  | .Column | .ColumnReverse =>
    (c.layout.bounds.x, c.layout.bounds.y, c.layout.bounds.height, c.layout.bounds.width)

/-- The direction-mapped `(main gap, cross gap)` (`flex_layout.rs:67-71`). -/
def passAxisGaps (cs : Style) : ℚ × ℚ :=
  match passDirection cs with
  | .Row | .RowReverse => ((gapsPx cs).2, (gapsPx cs).1)
  | .Column | .ColumnReverse => ((gapsPx cs).1, (gapsPx cs).2)

/-- The available main space (`flex_layout.rs:62-63`). -/
def passAvailMain (cs : Style) (c : Node) : ℚ :=
  determineAvailableSpace (passFrame cs c).2.2.1 cs (passDirection cs) Axis.Main

/-- The available cross space (`flex_layout.rs:64-65`). -/
def passAvailCross (cs : Style) (c : Node) : ℚ :=
  determineAvailableSpace (passFrame cs c).2.2.2 cs (passDirection cs) Axis.Cross

/-- The order-sorted `(index, child)` pairs (`flex_layout.rs:78-87`). -/
def passSorted (sheet : Sheet) (cs : Style) (c : Node) : List (Nat × Node) :=
  sortByOrder (orderKey sheet cs) c.children.enum

/-- The collected flex items of a pass (`flex_layout.rs:89-127`). -/
def passItems (sheet : Sheet) (cs : Style) (c : Node) : List FlexItem :=
  collectItems sheet cs (passDirection cs) (passSorted sheet cs c)

/-- The flex lines of a pass (`flex_layout.rs:133-157`). -/
def passLines (sheet : Sheet) (cs : Style) (c : Node) : List (List FlexItem) :=
  formLines (passCanWrap cs) (passAvailMain cs c) (passAxisGaps cs).1
    (passItems sheet cs c)

/-- The single-line definite-cross flag (`flex_layout.rs:161,215-217`). -/
def passSingleDefinite (sheet : Sheet) (cs : Style) (c : Node) : Bool :=
  decide ((passLines sheet cs c).length = 1)
    && isDefiniteContainerContentBoxSize cs (passDirection cs) Axis.Cross

/-- The accumulated child updates and final cross offset of the per-line loop
(`flex_layout.rs:159-322`). -/
def passFold (recurse : Node → ℚ → ℚ → Node) (sheet : Sheet) (cs : Style)
    (c : Node) : List (Nat × Node) × ℚ :=
  (passLines sheet cs c).foldl
    (fun acc line =>
      let processed := processLine recurse (passDirection cs)
        (cs.align_items.getD AlignItems.Stretch)
        (cs.justify_content.getD JustifyContent.FlexStart)
        (passAvailMain cs c) (passAxisGaps cs).1 (passSingleDefinite sheet cs c)
        (passAvailCross cs c) (passFrame cs c).1 (passFrame cs c).2.1 acc.2 line
      (acc.1 ++ processed.1, acc.2 + processed.2 + (passAxisGaps cs).2))
    ([], 0)

/-- The `(child index, bounds)` view of a list of child updates. -/
def boundsView (ups : List (Nat × Node)) : List (Nat × Rect) :=
  ups.map (fun u => (u.1, u.2.layout.bounds))

/-- Apply `(index, rect)` assignments to a list of rectangles. -/
def boundsSetFold (B : List Rect) (u : List (Nat × Rect)) : List Rect :=
  u.foldl (fun bs q => bs.set q.1 q.2) B

/-- The last rectangle an assignment list writes at an index, if any. -/
def lastW (u : List (Nat × Rect)) (j : Nat) : Option Rect :=
  u.foldl (fun acc q => if q.1 = j then some q.2 else acc) none

section Theorems

/-! ## Helper lemmas -/

theorem totalMainWithGaps_foldl (g : ℚ) (xs : List ℚ) :
    ∀ a : ℚ, xs.foldl (fun acc v => acc + g + v) a = a + xs.sum + g * xs.length := by
  induction xs with
  | nil => intro a; simp
  | cons v vs ih =>
    intro a
    simp only [List.foldl_cons, ih, List.sum_cons, List.length_cons]
    push_cast
    ring

theorem totalMainWithGaps_cons (g x : ℚ) (xs : List ℚ) :
    totalMainWithGaps g (x :: xs) = (x :: xs).sum + g * xs.length := by
  simp only [totalMainWithGaps, totalMainWithGaps_foldl, List.sum_cons]

theorem sum_map_add_scaled (l : List FlexItem) (f h : FlexItem → ℚ) (c G : ℚ) :
    (l.map (fun it => f it + c * (h it / G))).sum
      = (l.map f).sum + c * ((l.map h).sum / G) := by
  induction l with
  | nil => simp
  | cons x xs ih => simp [ih]; ring

theorem resolveLineMain_length (availableMain mainGap : ℚ) (line : List FlexItem) :
    (resolveLineMain availableMain mainGap line).length = line.length := by
  simp only [resolveLineMain]
  split_ifs <;> simp

/-! ## C10: wrap-reverse behaves exactly like wrap -/

/-- C10: for every container, tree, stylesheet and recursive callback, a
layout pass with `flex-wrap: wrap-reverse` produces exactly the same result
as one with `flex-wrap: wrap`: the wrap mode is consulted only to enable line
breaking, and lines always stack in the non-reversed cross direction. -/
theorem wrap_reverse_eq_wrap (recurse : Node → ℚ → ℚ → Node) (sheet : Sheet)
    (cs : Style) (container : Node) :
    layoutFlexChildrenWith recurse sheet
        { cs with flex_wrap := some FlexWrap.WrapReverse } container
      = layoutFlexChildrenWith recurse sheet
          { cs with flex_wrap := some FlexWrap.Wrap } container := rfl

/-! ## C7: justify-content offsets -/

/-- C7: the main-axis justify computation returns (start offset, inter-item
gap) as the claim lists them for each mode, and reversed directions swap only
the meanings of `FlexStart` and `FlexEnd` before dispatch. -/
theorem justify_offsets_spec (direction : FlexDirection) (leftover baseGap : ℚ)
    (n : Nat) (hn : 1 ≤ n) :
    ((direction = FlexDirection.Row ∨ direction = FlexDirection.Column) →
      justifyOffsets JustifyContent.FlexStart direction leftover baseGap n = (0, baseGap) ∧
      justifyOffsets JustifyContent.FlexEnd direction leftover baseGap n = (leftover, baseGap) ∧
      justifyOffsets JustifyContent.Center direction leftover baseGap n
        = (leftover / 2, baseGap) ∧
      (n ≤ 1 →
        justifyOffsets JustifyContent.SpaceBetween direction leftover baseGap n
          = (0, baseGap)) ∧
      (2 ≤ n →
        justifyOffsets JustifyContent.SpaceBetween direction leftover baseGap n
          = (0, baseGap + leftover / ((n : ℚ) - 1))) ∧
      justifyOffsets JustifyContent.SpaceAround direction leftover baseGap n
        = ((leftover / (n : ℚ)) / 2, baseGap + leftover / (n : ℚ)) ∧
      justifyOffsets JustifyContent.SpaceEvenly direction leftover baseGap n
        = (leftover / ((n : ℚ) + 1), baseGap + leftover / ((n : ℚ) + 1))) ∧
    ((direction = FlexDirection.RowReverse ∨ direction = FlexDirection.ColumnReverse) →
      justifyOffsets JustifyContent.FlexStart direction leftover baseGap n
        = justifyOffsets JustifyContent.FlexEnd FlexDirection.Row leftover baseGap n ∧
      justifyOffsets JustifyContent.FlexEnd direction leftover baseGap n
        = justifyOffsets JustifyContent.FlexStart FlexDirection.Row leftover baseGap n ∧
      ∀ j : JustifyContent, j ≠ JustifyContent.FlexStart → j ≠ JustifyContent.FlexEnd →
        justifyOffsets j direction leftover baseGap n
          = justifyOffsets j FlexDirection.Row leftover baseGap n) := by
  have h0 : ¬ n = 0 := by omega
  constructor
  · rintro (rfl | rfl) <;>
      refine ⟨?_, ?_, ?_, fun h1 => ?_, fun h2 => ?_, ?_, ?_⟩ <;>
      simp [justifyOffsets, h0] <;> omega
  · rintro (rfl | rfl) <;>
      refine ⟨by simp [justifyOffsets, h0], by simp [justifyOffsets, h0],
        fun j hjs hje => ?_⟩ <;>
      cases j <;> simp_all [justifyOffsets, h0]

/-- Witness for `justify_offsets_spec` at `direction = Row`, `n = 2`. -/
theorem justify_offsets_spec_witness :
    justifyOffsets JustifyContent.SpaceEvenly FlexDirection.Row 30 5 2
      = (30 / ((2 : ℚ) + 1), 5 + 30 / ((2 : ℚ) + 1)) := by
  have h := justify_offsets_spec FlexDirection.Row 30 5 2 (by decide)
  exact (h.1 (Or.inl rfl)).2.2.2.2.2.2

/-! ## C2: the no-shrink default -/

/-- C2: with negative free space, an item whose `flex-shrink` is unset keeps
its base main size, and a line whose total shrink weight is 0 is left
completely unchanged by the shrink path. -/
theorem no_shrink_default (availableMain mainGap : ℚ) (line : List FlexItem)
    (hfree : availableMain - totalMainWithGaps mainGap (line.map (fun it => it.base_main)) < 0) :
    List.Forall₂
      (fun a b => a.style.flex_shrink = none → a.final_main = a.base_main →
        b.final_main = a.base_main)
      line (resolveLineMain availableMain mainGap line) ∧
    ((line.map shrinkWeight).sum = 0 →
      resolveLineMain availableMain mainGap line = line) := by
  simp only [resolveLineMain]
  rw [if_neg (by linarith), if_pos hfree]
  by_cases hw : 0 < (line.map shrinkWeight).sum
  · rw [if_pos hw]
    refine ⟨?_, fun h0 => absurd (h0 ▸ hw) (lt_irrefl 0)⟩
    rw [List.forall₂_map_right_iff, List.forall₂_same]
    intro it _ hnone _
    simp [shrinkWeight, hnone]
  · rw [if_neg hw]
    refine ⟨?_, fun _ => rfl⟩
    rw [List.forall₂_same]
    intro it _ _ hbase
    exact hbase

/-- Witness for `no_shrink_default`: one unset-shrink item of base size 50 in
available space 30 (free space −20) keeps its size. -/
theorem no_shrink_default_witness :
    let it : FlexItem :=
      { nodeIdx := 0, node := Node.mk [] none [] ⟨⟨0, 0, 0, 0⟩, {}⟩, style := {},
        base_main := 50, base_cross := 30, final_main := 50, final_cross := 30 }
    List.Forall₂
      (fun a b => a.style.flex_shrink = none → a.final_main = a.base_main →
        b.final_main = a.base_main)
      [it] (resolveLineMain 30 0 [it]) ∧
    (([it].map shrinkWeight).sum = 0 → resolveLineMain 30 0 [it] = [it]) :=
  no_shrink_default 30 0 _ (by norm_num [totalMainWithGaps])

/-! ## C3: proportional growth and conservation -/

/-- C3: with positive free space and positive total grow, every item's final
main size is its base plus `free_space × (own_grow / total_grow)`, and the
final main sizes plus the inter-item gaps sum exactly to the available main
space. -/
theorem grow_conservation (availableMain mainGap : ℚ) (line : List FlexItem)
    (hfree : 0 < availableMain - totalMainWithGaps mainGap (line.map (fun it => it.base_main)))
    (hgrow : 0 < (line.map growFactor).sum) :
    List.Forall₂
      (fun a b => b.final_main
        = a.base_main
          + (availableMain - totalMainWithGaps mainGap (line.map (fun it => it.base_main)))
            * (growFactor a / (line.map growFactor).sum))
      line (resolveLineMain availableMain mainGap line) ∧
    totalMainWithGaps mainGap
        ((resolveLineMain availableMain mainGap line).map (fun it => it.final_main))
      = availableMain := by
  have hres : resolveLineMain availableMain mainGap line
      = line.map (fun it =>
          { it with final_main := it.base_main
              + (availableMain - totalMainWithGaps mainGap (line.map (fun j => j.base_main)))
                * (growFactor it / (line.map growFactor).sum) }) := by
    simp only [resolveLineMain]
    rw [if_pos hfree, if_pos hgrow]
  refine ⟨?_, ?_⟩
  · rw [hres, List.forall₂_map_right_iff, List.forall₂_same]
    intro it _
    rfl
  · rw [hres, List.map_map]
    have hcomp : ((fun it : FlexItem => it.final_main) ∘ fun it : FlexItem =>
        { it with final_main := it.base_main
            + (availableMain
                - totalMainWithGaps mainGap (line.map (fun j : FlexItem => j.base_main)))
              * (growFactor it / (line.map growFactor).sum) })
        = fun it : FlexItem => it.base_main
            + (availableMain - totalMainWithGaps mainGap (line.map (fun j => j.base_main)))
              * (growFactor it / (line.map growFactor).sum) := rfl
    rw [hcomp]
    rcases line with _ | ⟨x, xs⟩
    · simp at hgrow
    · have hG : (List.map growFactor (x :: xs)).sum ≠ 0 := ne_of_gt hgrow
      simp only [List.map_cons, List.sum_cons] at hG ⊢
      simp only [totalMainWithGaps_cons, List.map_cons, List.sum_cons,
        List.length_map] at hfree ⊢
      rw [sum_map_add_scaled]
      have h2 : (List.map growFactor xs).sum
          = (growFactor x + (List.map growFactor xs).sum) - growFactor x := by ring
      field_simp
      ring

/-- Witness for `grow_conservation`: two items of base 60 with grow factors 1
and 3 in available space 200 fill it exactly. -/
theorem grow_conservation_witness :
    let mkIt : ℚ → FlexItem := fun g =>
      { nodeIdx := 0, node := Node.mk [] none [] ⟨⟨0, 0, 0, 0⟩, {}⟩,
        style := { flex_grow := some g },
        base_main := 60, base_cross := 30, final_main := 60, final_cross := 30 }
    totalMainWithGaps 0
        ((resolveLineMain 200 0 [mkIt 1, mkIt 3]).map (fun it => it.final_main))
      = 200 :=
  (grow_conservation 200 0 _
    (by norm_num [totalMainWithGaps, growFactor])
    (by norm_num [totalMainWithGaps, growFactor])).2

/-! ## More helper lemmas -/

theorem Node.withChildren_layout (n : Node) (c : List Node) :
    (n.withChildren c).layout = n.layout := by
  cases n; rfl

theorem Node.withLayout_layout (n : Node) (l : LayoutRecord) :
    (n.withLayout l).layout = l := by
  cases n; rfl

theorem foldl_max_init_le (l : List ℚ) : ∀ a : ℚ, a ≤ l.foldl max a := by
  induction l with
  | nil => intro a; simp
  | cons x xs ih => intro a; exact le_trans (le_max_left a x) (ih (max a x))

theorem foldl_max_le_of_mem (l : List ℚ) : ∀ (a x : ℚ), x ∈ l → x ≤ l.foldl max a := by
  induction l with
  | nil => intro a x hx; simp at hx
  | cons y ys ih =>
    intro a x hx
    rcases List.mem_cons.mp hx with rfl | hx
    · exact le_trans (le_max_right a x) (foldl_max_init_le ys (max a x))
    · exact ih (max a y) x hx

theorem foldl_max_mem_or (l : List ℚ) : ∀ a : ℚ, l.foldl max a = a ∨ l.foldl max a ∈ l := by
  induction l with
  | nil => intro a; left; rfl
  | cons x xs ih =>
    intro a
    rcases ih (max a x) with h | h
    · rcases max_choice a x with hm | hm
      · left; simp only [List.foldl_cons]; rw [h, hm]
      · right; simp only [List.foldl_cons]; rw [h, hm]; exact List.mem_cons_self x xs
    · right; exact List.mem_cons_of_mem x h

/-! ## C8: whitespace-only text children and the empty no-op -/

/-- C8: a child carrying a text payload, with no attributes and no children,
whose trimmed text is empty contributes no flex item; and a pass whose
collected item list is empty returns the container unchanged. -/
theorem whitespace_text_filtered (sheet : Sheet) (cs : Style)
    (direction : FlexDirection) (i : Nat) (n : Node) (t : String)
    (rest : List (Nat × Node)) (htext : n.text = some t) (hattrs : n.attributes = [])
    (hchildren : n.children = []) (htrim : (strTrim t).data.isEmpty = true) :
    collectItems sheet cs direction ((i, n) :: rest) = collectItems sheet cs direction rest ∧
    ∀ (recurse : Node → ℚ → ℚ → Node) (container : Node),
      collectItems sheet cs (cs.flex_direction.getD FlexDirection.Row)
          (sortByOrder (orderKey sheet cs) container.children.enum) = [] →
      layoutFlexChildrenWith recurse sheet cs container = container := by
  constructor
  · simp [collectItems, isDroppedWhitespaceText, isTextNodeGuess, htext, hattrs,
      hchildren, htrim]
  · intro recurse container h
    simp only [layoutFlexChildrenWith]
    rw [h]
    simp

/-- Witness for `whitespace_text_filtered`: a container with a single
whitespace-text child is left untouched by the pass. -/
theorem whitespace_text_filtered_witness :
    let ws : Node := Node.mk [] (some " ") [] ⟨⟨0, 0, 0, 0⟩, {}⟩
    let container : Node := Node.mk [ws] none [("id", "c")] ⟨⟨0, 0, 200, 100⟩, {}⟩
    collectItems [] {} FlexDirection.Row [(0, ws)] = collectItems [] {} FlexDirection.Row [] ∧
    layoutFlexChildrenWith (fun n _ _ => n) [] {} container = container := by
  intro ws container
  have h := whitespace_text_filtered [] {} FlexDirection.Row 0 ws " " []
    rfl rfl rfl (by decide)
  exact ⟨h.1, h.2 (fun n _ _ => n) container rfl⟩

/-! ## C4: line cross size and the single-line definite override -/

/-- C4: with exactly one line and a definite container cross size, the cross
size used for stretching and positioning is the available cross space;
otherwise it is the maximum of the items' current cross sizes. -/
theorem line_cross_size_override (cs : Style) (direction : FlexDirection)
    (availableCross : ℚ) (line : List FlexItem) (lines : List (List FlexItem)) :
    (lines.length = 1 →
      isDefiniteContainerContentBoxSize cs direction Axis.Cross = true →
      lineCrossSizeUsed
          (decide (lines.length = 1)
            && isDefiniteContainerContentBoxSize cs direction Axis.Cross)
          availableCross line
        = availableCross) ∧
    ((¬ lines.length = 1 ∨ isDefiniteContainerContentBoxSize cs direction Axis.Cross = false) →
      lineCrossSizeUsed
          (decide (lines.length = 1)
            && isDefiniteContainerContentBoxSize cs direction Axis.Cross)
          availableCross line
        = lineMaxCross line) ∧
    (line ≠ [] → (∀ it ∈ line, 0 ≤ it.final_cross) →
      lineMaxCross line ∈ line.map (fun it => it.final_cross) ∧
      ∀ c ∈ line.map (fun it => it.final_cross), c ≤ lineMaxCross line) := by
  refine ⟨?_, ?_, ?_⟩
  · intro h1 h2
    simp [lineCrossSizeUsed, h1, h2]
  · intro h
    rcases h with h | h <;> simp [lineCrossSizeUsed, h]
  · intro hne hnn
    have hub : ∀ c ∈ line.map (fun it => it.final_cross), c ≤ lineMaxCross line := by
      intro c hc
      exact foldl_max_le_of_mem _ 0 c hc
    refine ⟨?_, hub⟩
    rcases foldl_max_mem_or (line.map (fun it => it.final_cross)) 0 with h0 | hmem
    · rcases line with _ | ⟨x, xs⟩
      · exact absurd rfl hne
      · have hx : x.final_cross ∈ (x :: xs).map (fun it => it.final_cross) := by simp
        have hle : x.final_cross ≤ lineMaxCross (x :: xs) := hub _ hx
        have hge : 0 ≤ x.final_cross := hnn x (List.mem_cons_self x xs)
        have hz : lineMaxCross (x :: xs) = 0 := h0
        have hxz : x.final_cross = lineMaxCross (x :: xs) :=
          le_antisymm hle (by rw [hz]; exact hge)
        rw [← hxz]
        exact hx
    · exact hmem

/-- Witness for `line_cross_size_override`: a single line of one 40-cross item
inside a definite-cross container uses the available 200, and the same line
without the override uses the item max 40. -/
theorem line_cross_size_override_witness :
    let it : FlexItem :=
      { nodeIdx := 0, node := Node.mk [] none [] ⟨⟨0, 0, 0, 0⟩, {}⟩, style := {},
        base_main := 60, base_cross := 40, final_main := 60, final_cross := 40 }
    let cs : Style := { height := some (Length.Px 200) }
    lineCrossSizeUsed
        (decide ([[it]].length = 1)
          && isDefiniteContainerContentBoxSize cs FlexDirection.Row Axis.Cross)
        200 [it]
      = 200 ∧
    lineMaxCross [it] ∈ [it].map (fun it => it.final_cross) := by
  intro it cs
  refine ⟨(line_cross_size_override cs FlexDirection.Row 200 [it] [[it]]).1 rfl (by decide), ?_⟩
  exact ((line_cross_size_override cs FlexDirection.Row 200 [it] [[it]]).2.2
    (by simp) (by intro x hx; simp at hx; rw [hx]; norm_num)).1

/-! ## C5: base main sizes and the shrink-to-fit override -/

/-- C5 counterexample: for a nested container whose children have explicit
widths 0 and 40, the code's intrinsic size uses the raw resolved lengths and
yields a base main size of 40, while the claim's "maximum of the children's
axis-mapped physical sizes" is 100 (the 0-width child maps to the 100
placeholder under §4.3's non-positive rule). -/
theorem shrink_to_fit_counterexample :
    (baseSizesForItem cexIntrinsicNode {} FlexDirection.Row []).1 = 40 ∧
    specIntrinsicMainFromChildren cexIntrinsicNode FlexDirection.Row [] {} = 100 ∧
    (40 : ℚ) ≠ 100 := by
  refine ⟨by decide, by decide, by norm_num⟩

/-- C5 (amended): the base main size comes from `flex-basis` (explicit pixel
or converted length verbatim, `auto` mapping to the axis-mapped defaulted
physical size), or, for a childbearing item with no explicit main-axis pixel
length, no `flex-basis`, and a placeholder-defaulted main size, from the
code's child-derived intrinsic size — the maximum of the children's raw
resolved axis lengths (unset mapping to the 100/30 default, explicit values
taken verbatim without positivity filtering) — provided that maximum is
positive; in every other case the axis-mapped defaulted physical size is
used. -/
theorem base_size_cases (node : Node) (style : Style)
    (direction : FlexDirection) (sheet : Sheet) :
    (∀ v : ℚ, style.flex_basis = some (Length.Px v) →
      (baseSizesForItem node style direction sheet).1 = v) ∧
    (∀ v : ℚ, style.flex_basis = some (Length.Other v) →
      (baseSizesForItem node style direction sheet).1 = v) ∧
    (style.flex_basis = some Length.Auto →
      (baseSizesForItem node style direction sheet).1 = mainFromPhysical style direction) ∧
    (style.flex_basis = none → node.children = [] →
      (baseSizesForItem node style direction sheet).1 = mainFromPhysical style direction) ∧
    (node.children ≠ [] → hasExplicitMain style direction = false →
      style.flex_basis = none → mainWasDefault style direction = true →
      0 < intrinsicMainFromChildren node direction sheet style →
      (baseSizesForItem node style direction sheet).1
        = intrinsicMainFromChildren node direction sheet style) ∧
    (node.children ≠ [] → style.flex_basis = none →
      ¬ (hasExplicitMain style direction = false
          ∧ mainWasDefault style direction = true
          ∧ 0 < intrinsicMainFromChildren node direction sheet style) →
      (baseSizesForItem node style direction sheet).1 = mainFromPhysical style direction) := by
  have hnem : node.children ≠ [] → (!node.children.isEmpty) = true := by
    intro h
    cases hc : node.children with
    | nil => exact absurd hc h
    | cons a l => simp
  refine ⟨?_, ?_, ?_, ?_, ?_, ?_⟩
  · intro v hb
    cases direction <;> simp [baseSizesForItem, hb]
  · intro v hb
    cases direction <;> simp [baseSizesForItem, hb]
  · intro hb
    cases direction <;> simp [baseSizesForItem, hb, mainFromPhysical]
  · intro hb hc
    cases direction <;> simp [baseSizesForItem, hb, hc, mainFromPhysical]
  · intro hne hexp hb hdef hpos
    have hne' := hnem hne
    cases direction <;>
      simp_all [baseSizesForItem, hb, hexp, hne', hdef, hpos, mainFromPhysical]
  · intro hne hb hnot
    have hne' := hnem hne
    by_cases hexp : hasExplicitMain style direction = false
    · by_cases hdef : mainWasDefault style direction = true
      · have hip : ¬ 0 < intrinsicMainFromChildren node direction sheet style := by
          intro hpos
          exact hnot ⟨hexp, hdef, hpos⟩
        cases direction <;>
          simp_all [baseSizesForItem, hb, hexp, hne', hdef, mainFromPhysical]
      · cases direction <;>
          simp_all [baseSizesForItem, hb, hexp, hne', hdef, mainFromPhysical]
    · have hexp' : hasExplicitMain style direction = true := by
        cases h : hasExplicitMain style direction with
        | false => exact absurd h hexp
        | true => rfl
      -- an explicit pixel main size means the physical size is that pixel
      -- value, and the override branch is skipped
      cases direction <;>
        simp_all [baseSizesForItem, hb, hne', mainFromPhysical]


/-- Witness for `base_size_cases`: the shrink-to-fit branch at
`cexIntrinsicNode` (children of widths 0 and 40) yields the child-derived
intrinsic size. -/
theorem base_size_cases_witness :
    (baseSizesForItem cexIntrinsicNode {} FlexDirection.Row []).1
      = intrinsicMainFromChildren cexIntrinsicNode FlexDirection.Row [] {} :=
  (base_size_cases cexIntrinsicNode {} FlexDirection.Row []).2.2.2.2.1
    (List.cons_ne_nil _ _) (by decide) rfl (by decide) (by with_unfolding_all decide)

/-! ## C1: cross-axis positioning -/

theorem layoutFlexChildrenWith_layout (recurse : Node → ℚ → ℚ → Node)
    (sheet : Sheet) (cs : Style) (c : Node) :
    (layoutFlexChildrenWith recurse sheet cs c).layout = c.layout := by
  simp only [layoutFlexChildrenWith]
  split
  · rfl
  · exact Node.withChildren_layout c _

theorem layoutNode_pos (sheet : Sheet) (fuel : Nat) (n : Node) (x y : ℚ) :
    (layoutNode sheet fuel n x y).layout.bounds.x = x ∧
    (layoutNode sheet fuel n x y).layout.bounds.y = y := by
  cases fuel with
  | zero =>
    simp [layoutNode, setPos, Node.withLayout_layout]
  | succ k =>
    simp only [layoutNode]
    split
    · simp [sizeLeafFromStyle, setPos, Node.withLayout_layout]
    · split
      · rw [layoutFlexChildrenWith_layout]
        simp [setPos, Node.withLayout_layout]
      · simp [setPos, Node.withLayout_layout]

theorem applyItemWrites_bounds (sheet : Sheet) (fuel : Nat) (it : FlexItem) (r : Rect) :
    (applyItemWrites (layoutNode sheet fuel) it r).layout.bounds = r := by
  simp only [applyItemWrites, Node.withLayout_layout]
  obtain ⟨hx, hy⟩ := layoutNode_pos sheet fuel
    (it.node.withLayout { bounds := r, style := it.style }) r.x r.y
  cases r
  simp_all

theorem placeLine_length (recurse : Node → ℚ → ℚ → Node) (direction : FlexDirection)
    (alignItems : AlignItems) (cx cy off lc bg : ℚ) :
    ∀ (line : List FlexItem) (cursor : ℚ),
      (placeLine recurse direction alignItems cx cy off lc bg cursor line).length
        = line.length := by
  intro line
  induction line with
  | nil => intro cursor; rfl
  | cons it rest ih =>
    intro cursor
    simp [placeLine, ih]

theorem placeLine_bounds (sheet : Sheet) (fuel : Nat) (direction : FlexDirection)
    (alignItems : AlignItems) (cx cy off lc bg : ℚ) :
    ∀ (line : List FlexItem) (cursor : ℚ) (i : Nat) (h : i < line.length)
      (h2 : i < (placeLine (layoutNode sheet fuel) direction alignItems
        cx cy off lc bg cursor line).length),
      ∃ c : ℚ,
        ((placeLine (layoutNode sheet fuel) direction alignItems
            cx cy off lc bg cursor line).get ⟨i, h2⟩).2.layout.bounds
          = physicalRect direction cx cy c
              (crossPos alignItems off lc (line.get ⟨i, h⟩)) (line.get ⟨i, h⟩) := by
  intro line
  induction line with
  | nil =>
    intro cursor i h
    simp at h
  | cons it rest ih =>
    intro cursor i h h2
    cases i with
    | zero =>
      refine ⟨cursor, ?_⟩
      simp only [placeLine, List.get]
      exact applyItemWrites_bounds sheet fuel it _
    | succ j =>
      simp only [placeLine, List.get]
      exact ih (cursor + it.final_main + bg) j (Nat.lt_of_succ_lt_succ h) _

/-- C1 counterexample: a child with `align-self: flex-start` inside a
container with `align-items: flex-end` and line cross size 100 is placed at
cross position 60 (the container-level `flex-end` placement), while the
claim's effective-alignment dispatch predicts position 0. -/
theorem align_position_counterexample :
    ((layoutFlexChildren 1 [] cexAlignStyle cexAlignContainer).children.map
        (fun c => c.layout.bounds.y)) = [60] ∧
    specCrossPos AlignItems.FlexEnd 0 100 cexAlignItem = 0 ∧
    (60 : ℚ) ≠ 0 := by
  refine ⟨by with_unfolding_all decide, by with_unfolding_all decide, by norm_num⟩

/-- C1 (amended): each placed item's cross-axis position is dispatched on the
*container's* `align-items` — `FlexStart`/`Baseline`/`Stretch` at the line's
cross start offset, `FlexEnd` at offset + (line cross size − item cross
size), `Center` at offset + (line cross size − item cross size)/2 — while the
per-item effective alignment (`align-self`, `Auto` mapping to the container's
`align-items`) only decides stretch sizing. -/
theorem cross_position_from_container_align (sheet : Sheet) (fuel : Nat)
    (direction : FlexDirection) (alignItems : AlignItems)
    (cx cy off lc bg cursor : ℚ) (line : List FlexItem) (i : Nat)
    (h : i < line.length)
    (h2 : i < (placeLine (layoutNode sheet fuel) direction alignItems
      cx cy off lc bg cursor line).length) :
    (∀ it ∈ line,
      (effectiveAlign alignItems it = AlignItems.Stretch
          ∧ crossSizeIsAuto it.style direction = true →
        ∃ jt ∈ applyStretch alignItems direction lc line, jt.final_cross = lc) ∧
      (effectiveAlign alignItems it ≠ AlignItems.Stretch →
        ∃ jt ∈ applyStretch alignItems direction lc line,
          jt.final_cross = it.final_cross)) ∧
    ((direction = FlexDirection.Row ∨ direction = FlexDirection.RowReverse) →
      ((placeLine (layoutNode sheet fuel) direction alignItems
          cx cy off lc bg cursor line).get ⟨i, h2⟩).2.layout.bounds.y
        = cy + (match alignItems with
            | .FlexStart | .Baseline | .Stretch => off
            | .FlexEnd => off + (lc - (line.get ⟨i, h⟩).final_cross)
            | .Center => off + (lc - (line.get ⟨i, h⟩).final_cross) / 2)) ∧
    ((direction = FlexDirection.Column ∨ direction = FlexDirection.ColumnReverse) →
      ((placeLine (layoutNode sheet fuel) direction alignItems
          cx cy off lc bg cursor line).get ⟨i, h2⟩).2.layout.bounds.x
        = cx + (match alignItems with
            | .FlexStart | .Baseline | .Stretch => off
            | .FlexEnd => off + (lc - (line.get ⟨i, h⟩).final_cross)
            | .Center => off + (lc - (line.get ⟨i, h⟩).final_cross) / 2)) := by
  obtain ⟨c, hc⟩ := placeLine_bounds sheet fuel direction alignItems
    cx cy off lc bg line cursor i h h2
  refine ⟨?_, ?_, ?_⟩
  · intro it hit
    constructor
    · rintro ⟨hs, ha⟩
      refine ⟨{ it with final_cross := lc }, ?_, rfl⟩
      simp only [applyStretch, List.mem_map]
      exact ⟨it, hit, by rw [if_pos (by simp [hs, ha])]⟩
    · intro hs
      refine ⟨it, ?_, rfl⟩
      simp only [applyStretch, List.mem_map]
      refine ⟨it, hit, ?_⟩
      rw [if_neg]
      simp only [Bool.and_eq_true, beq_iff_eq, not_and]
      intro he
      exact absurd he hs
  · rintro (rfl | rfl) <;>
      (rw [hc]; cases alignItems <;> simp [physicalRect, crossPos])
  · rintro (rfl | rfl) <;>
      (rw [hc]; cases alignItems <;> simp [physicalRect, crossPos])

/-- Witness for `cross_position_from_container_align`: a single `flex-end`
aligned 40-cross item in a 100-cross line is placed at cross position 60. -/
theorem cross_position_witness :
    ((placeLine (layoutNode [] 1) FlexDirection.Row AlignItems.FlexEnd
        0 0 0 100 0 0 [cexAlignItem]).get ⟨0, by decide⟩).2.layout.bounds.y
      = 0 + (0 + ((100 : ℚ) - 40)) := by
  have h := cross_position_from_container_align [] 1 FlexDirection.Row
    AlignItems.FlexEnd 0 0 0 100 0 0 [cexAlignItem] 0 (by decide) (by decide)
  have h2 := h.2.1 (Or.inl rfl)
  simpa using h2

/-! ## C6: line formation -/

theorem totalMainWithGaps_append_singleton (g x : ℚ) (xs : List ℚ) :
    totalMainWithGaps g (xs ++ [x])
      = totalMainWithGaps g xs + (if xs.isEmpty then 0 else g) + x := by
  rcases xs with _ | ⟨y, ys⟩
  · simp [totalMainWithGaps]
  · simp only [totalMainWithGaps, List.cons_append, List.foldl_append,
      List.foldl_cons, List.foldl_nil, List.isEmpty_cons, if_neg]
    simp

theorem lineStep_wrap (canWrap : Bool) (avail gap : ℚ) (st : LineState)
    (item : FlexItem)
    (h : (canWrap && !st.current.isEmpty
      && decide (avail < st.currentUsedMain
        + (if st.current.isEmpty then 0 else gap) + item.base_main)) = true) :
    lineStep canWrap avail gap st item
      = { lines := st.lines ++ [st.current], current := [item],
          currentUsedMain := 0 + 0 + item.base_main } := by
  simp only [lineStep]
  rw [if_pos h]
  simp

theorem lineStep_no_wrap (canWrap : Bool) (avail gap : ℚ) (st : LineState)
    (item : FlexItem)
    (h : (canWrap && !st.current.isEmpty
      && decide (avail < st.currentUsedMain
        + (if st.current.isEmpty then 0 else gap) + item.base_main)) = false) :
    lineStep canWrap avail gap st item
      = { lines := st.lines, current := st.current ++ [item],
          currentUsedMain := st.currentUsedMain
            + (if st.current.isEmpty then 0 else gap) + item.base_main } := by
  simp only [lineStep]
  rw [if_neg (by rw [h]; exact Bool.false_ne_true)]

theorem foldl_lineStep_eq_go (canWrap : Bool) (avail gap : ℚ) :
    ∀ (items : List FlexItem) (st : LineState),
      st.currentUsedMain
        = totalMainWithGaps gap (st.current.map (fun it => it.base_main)) →
      (if (items.foldl (lineStep canWrap avail gap) st).current.isEmpty
       then (items.foldl (lineStep canWrap avail gap) st).lines
       else (items.foldl (lineStep canWrap avail gap) st).lines
         ++ [(items.foldl (lineStep canWrap avail gap) st).current])
        = st.lines ++ formLinesGo canWrap avail gap st.current items := by
  intro items
  induction items with
  | nil =>
    rintro ⟨ls, cur, used⟩ hinv
    rcases cur with _ | ⟨c0, cur⟩ <;> simp [formLinesGo]
  | cons item rest ih =>
    rintro ⟨ls, cur, used⟩ hinv
    simp only [LineState.current, LineState.currentUsedMain, LineState.lines] at hinv ⊢
    rcases cur with _ | ⟨c0, cur⟩
    · -- empty current line: never wrap, start the line with this item
      have hused : used = 0 := by simpa [totalMainWithGaps] using hinv
      subst hused
      have hstep : lineStep canWrap avail gap ⟨ls, [], 0⟩ item
          = ⟨ls, [item], 0 + 0 + item.base_main⟩ := by
        rw [lineStep_no_wrap canWrap avail gap ⟨ls, [], 0⟩ item (by simp)]
        simp
      rw [List.foldl_cons, hstep]
      rw [ih ⟨ls, [item], 0 + 0 + item.base_main⟩ (by simp [totalMainWithGaps])]
      simp only [formLinesGo, LineState.current, LineState.lines]
      rw [if_neg (by simp)]
      simp
    · -- non-empty current line: the step condition is the go condition
      have hiff : (canWrap && !((c0 :: cur : List FlexItem)).isEmpty
            && decide (avail < used
              + (if ((c0 :: cur : List FlexItem)).isEmpty then 0 else gap)
              + item.base_main))
          = (canWrap && !((c0 :: cur : List FlexItem)).isEmpty
            && decide (avail
              < totalMainWithGaps gap ((c0 :: cur).map (fun it => it.base_main))
                + gap + item.base_main)) := by
        rw [hinv]
        simp
      by_cases h : (canWrap && !((c0 :: cur : List FlexItem)).isEmpty
          && decide (avail
            < totalMainWithGaps gap ((c0 :: cur).map (fun it => it.base_main))
              + gap + item.base_main)) = true
      · have hstep : lineStep canWrap avail gap ⟨ls, c0 :: cur, used⟩ item
            = ⟨ls ++ [c0 :: cur], [item], 0 + 0 + item.base_main⟩ := by
          rw [lineStep_wrap canWrap avail gap ⟨ls, c0 :: cur, used⟩ item
            (by rw [hiff]; exact h)]
        rw [List.foldl_cons, hstep]
        rw [ih ⟨ls ++ [c0 :: cur], [item], 0 + 0 + item.base_main⟩
          (by simp [totalMainWithGaps])]
        simp only [formLinesGo, LineState.current, LineState.lines]
        rw [if_pos h]
        simp
      · have hfalse : (canWrap && !((c0 :: cur : List FlexItem)).isEmpty
            && decide (avail < used
              + (if ((c0 :: cur : List FlexItem)).isEmpty then 0 else gap)
              + item.base_main)) = false := by
          rw [hiff]
          exact Bool.not_eq_true _ ▸ h
        have hstep : lineStep canWrap avail gap ⟨ls, c0 :: cur, used⟩ item
            = ⟨ls, (c0 :: cur) ++ [item], used + gap + item.base_main⟩ := by
          rw [lineStep_no_wrap canWrap avail gap ⟨ls, c0 :: cur, used⟩ item hfalse]
          simp
        rw [List.foldl_cons, hstep]
        have hinv' : used + gap + item.base_main
            = totalMainWithGaps gap
                (((c0 :: cur) ++ [item]).map (fun it => it.base_main)) := by
          simp only [List.map_append, List.map_cons, List.map_nil]
          rw [totalMainWithGaps_append_singleton]
          rw [hinv]
          simp
        rw [ih ⟨ls, (c0 :: cur) ++ [item], used + gap + item.base_main⟩ hinv']
        simp only [formLinesGo, LineState.current, LineState.lines]
        rw [if_neg (by simpa using h)]

theorem go_join (c : Bool) (a g : ℚ) :
    ∀ (items current : List FlexItem),
      (formLinesGo c a g current items).flatten = current ++ items := by
  intro items
  induction items with
  | nil =>
    intro current
    rcases current with _ | ⟨x, xs⟩ <;> simp [formLinesGo]
  | cons item rest ih =>
    intro current
    simp only [formLinesGo]
    split_ifs with h
    · simp [ih]
    · simp [ih]

theorem go_ne_nil (c : Bool) (a g : ℚ) :
    ∀ (items current : List FlexItem), [] ∉ formLinesGo c a g current items := by
  intro items
  induction items with
  | nil =>
    intro current
    rcases current with _ | ⟨x, xs⟩ <;> simp [formLinesGo]
  | cons item rest ih =>
    intro current
    simp only [formLinesGo]
    split_ifs with h
    · intro hmem
      rcases List.mem_cons.mp hmem with heq | hmem
      · have : current.isEmpty = false := by
          have h' := h
          simp only [Bool.and_eq_true] at h'
          simpa using h'.1.2
        rw [← heq] at this
        simp at this
      · exact ih [item] hmem
    · exact ih (current ++ [item])

theorem go_nowrap (a g : ℚ) :
    ∀ (items current : List FlexItem),
      formLinesGo false a g current items
        = if (current ++ items).isEmpty then [] else [current ++ items] := by
  intro items
  induction items with
  | nil =>
    intro current
    rcases current with _ | ⟨x, xs⟩ <;> simp [formLinesGo]
  | cons item rest ih =>
    intro current
    simp only [formLinesGo, Bool.false_and, Bool.if_false_left]
    rw [if_neg (by simp)]
    rw [ih (current ++ [item])]
    simp

theorem go_head (c : Bool) (a g : ℚ) :
    ∀ (items current : List FlexItem), current ≠ [] →
      ∃ t rest, formLinesGo c a g current items = (current ++ t) :: rest := by
  intro items
  induction items with
  | nil =>
    intro current hne
    refine ⟨[], [], ?_⟩
    simp only [formLinesGo]
    rw [if_neg (by simpa using hne)]
    simp
  | cons item rest ih =>
    intro current hne
    simp only [formLinesGo]
    split_ifs with h
    · exact ⟨[], formLinesGo c a g [item] rest, by simp⟩
    · obtain ⟨t, rest', hgo⟩ := ih (current ++ [item]) (by simp)
      exact ⟨[item] ++ t, rest', by rw [hgo, List.append_assoc]⟩

theorem noMidBreak_singleton (c : Bool) (a g : ℚ) (x : FlexItem) :
    NoMidBreak c a g [x] := by
  intro k hk h0
  simp only [List.length_singleton] at hk
  omega

theorem noMidBreak_append (c : Bool) (a g : ℚ) (l : List FlexItem) (x : FlexItem)
    (hl : NoMidBreak c a g l)
    (hx : ¬ (c = true ∧ a < totalMainWithGaps g (l.map (fun it => it.base_main))
      + g + x.base_main)) :
    NoMidBreak c a g (l ++ [x]) := by
  intro k hk h0
  have hk' : k < l.length + 1 := by simpa using hk
  by_cases hkl : k < l.length
  · have htake : (l ++ [x]).take k = l.take k :=
      List.take_append_of_le_length (le_of_lt hkl)
    have hget : (l ++ [x]).get ⟨k, hk⟩ = l.get ⟨k, hkl⟩ := by
      rw [List.get_append k hkl]
    rw [htake, hget]
    exact hl k hkl h0
  · have hkeq : k = l.length := by omega
    subst hkeq
    have htake : (l ++ [x]).take l.length = l := List.take_left l [x]
    have hget : (l ++ [x]).get ⟨l.length, hk⟩ = x := by
      have := List.getElem_concat_length l x l.length rfl (by simpa using hk)
      simpa [List.get_eq_getElem] using this
    rw [htake, hget]
    exact hx

theorem go_noMid_chain (c : Bool) (a g : ℚ) :
    ∀ (items current : List FlexItem), current ≠ [] → NoMidBreak c a g current →
      (∀ l ∈ formLinesGo c a g current items, NoMidBreak c a g l) ∧
      List.Chain' (lineBreakCond c a g) (formLinesGo c a g current items) := by
  intro items
  induction items with
  | nil =>
    intro current hne hnm
    have hout : formLinesGo c a g current [] = [current] := by
      simp only [formLinesGo]
      rw [if_neg (by simpa using hne)]
    rw [hout]
    exact ⟨fun l hl => by rw [List.mem_singleton.mp hl]; exact hnm,
      List.chain'_singleton current⟩
  | cons item rest ih =>
    intro current hne hnm
    simp only [formLinesGo]
    split_ifs with h
    · have h' := h
      simp only [Bool.and_eq_true, decide_eq_true_eq] at h'
      have hc : c = true := h'.1.1
      have hcond : a < totalMainWithGaps g (current.map (fun it => it.base_main))
          + g + item.base_main := h'.2
      obtain ⟨hmem, hchain⟩ := ih [item] (by simp) (noMidBreak_singleton c a g item)
      constructor
      · intro l hl
        rcases List.mem_cons.mp hl with rfl | hl
        · exact hnm
        · exact hmem l hl
      · obtain ⟨t, rest', hgo⟩ := go_head c a g rest [item] (by simp)
        rw [hgo]
        rw [hgo] at hchain
        rw [List.singleton_append] at hchain ⊢
        exact List.chain'_cons.mpr ⟨⟨hc, item, t, rfl, hcond⟩, hchain⟩
    · have hnm' : NoMidBreak c a g (current ++ [item]) := by
        apply noMidBreak_append c a g current item hnm
        rintro ⟨hc, hlt⟩
        apply h
        simp only [Bool.and_eq_true, decide_eq_true_eq]
        exact ⟨⟨hc, by simpa using hne⟩, hlt⟩
      exact ih (current ++ [item]) (by simp) hnm'

/-- C6: every emitted line is non-empty; the lines concatenate back to the
post-sort item list (order kept within and across lines); with wrapping
disabled all items land on exactly one line; consecutive lines are separated
exactly where wrapping is enabled and the next item (with its preceding gap)
would overflow the available main space — and no such overflow point exists
inside any line. -/
theorem line_formation (canWrap : Bool) (availableMain mainGap : ℚ)
    (items : List FlexItem) :
    [] ∉ formLines canWrap availableMain mainGap items ∧
    (formLines canWrap availableMain mainGap items).flatten = items ∧
    (canWrap = false → items ≠ [] →
      formLines canWrap availableMain mainGap items = [items]) ∧
    List.Chain' (lineBreakCond canWrap availableMain mainGap)
      (formLines canWrap availableMain mainGap items) ∧
    ∀ l ∈ formLines canWrap availableMain mainGap items,
      NoMidBreak canWrap availableMain mainGap l := by
  have hbridge : formLines canWrap availableMain mainGap items
      = formLinesGo canWrap availableMain mainGap [] items := by
    have h := foldl_lineStep_eq_go canWrap availableMain mainGap items ⟨[], [], 0⟩
      (by simp [totalMainWithGaps])
    simpa [formLines] using h
  rw [hbridge]
  refine ⟨go_ne_nil canWrap availableMain mainGap items [],
    go_join canWrap availableMain mainGap items [], ?_, ?_, ?_⟩
  · rintro rfl hne
    rw [go_nowrap availableMain mainGap items []]
    simp only [List.nil_append]
    rw [if_neg (by simpa using hne)]
  · rcases items with _ | ⟨x, xs⟩
    · simp [formLinesGo]
    · have hstep : formLinesGo canWrap availableMain mainGap [] (x :: xs)
          = formLinesGo canWrap availableMain mainGap [x] xs := by
        simp only [formLinesGo]
        rw [if_neg (by simp)]
        simp
      rw [hstep]
      exact (go_noMid_chain canWrap availableMain mainGap xs [x] (by simp)
        (noMidBreak_singleton canWrap availableMain mainGap x)).2
  · rcases items with _ | ⟨x, xs⟩
    · simp [formLinesGo]
    · have hstep : formLinesGo canWrap availableMain mainGap [] (x :: xs)
          = formLinesGo canWrap availableMain mainGap [x] xs := by
        simp only [formLinesGo]
        rw [if_neg (by simp)]
        simp
      rw [hstep]
      exact (go_noMid_chain canWrap availableMain mainGap xs [x] (by simp)
        (noMidBreak_singleton canWrap availableMain mainGap x)).1

/-- Witness for `line_formation`: one item in a no-wrap container sits on a
single line. -/
theorem line_formation_witness :
    let it : FlexItem :=
      { nodeIdx := 0, node := Node.mk [] none [] ⟨⟨0, 0, 0, 0⟩, {}⟩, style := {},
        base_main := 50, base_cross := 30, final_main := 50, final_cross := 30 }
    formLines false 40 0 [it] = [[it]] :=
  (line_formation false 40 0 _).2.2.1 rfl (by simp)

/-! ## C9: idempotence — style resolution machinery -/

theorem style_ext (a b : Style)
    (h1 : a.display = b.display) (h2 : a.flex_direction = b.flex_direction)
    (h3 : a.flex_wrap = b.flex_wrap) (h4 : a.justify_content = b.justify_content)
    (h5 : a.align_items = b.align_items) (h6 : a.align_self = b.align_self)
    (h7 : a.order = b.order) (h8 : a.flex_grow = b.flex_grow)
    (h9 : a.flex_shrink = b.flex_shrink) (h10 : a.flex_basis = b.flex_basis)
    (h11 : a.width = b.width) (h12 : a.height = b.height)
    (h13 : a.gap = b.gap) (h14 : a.row_gap = b.row_gap)
    (h15 : a.column_gap = b.column_gap) (h16 : a.padding = b.padding)
    (h17 : a.border_width = b.border_width) : a = b := by
  cases a; cases b; simp_all

theorem lastVal_foldl {β : Type} (f : Declaration → Option β) :
    ∀ (L : List Declaration) (acc : Option β),
      L.foldl (fun a d => match f d with | some v => some v | none => a) acc
        = match lastVal f L with | some v => some v | none => acc := by
  intro L
  induction L with
  | nil => intro acc; rfl
  | cons d L ih =>
    intro acc
    simp only [List.foldl_cons]
    rw [ih]
    have h0 : lastVal f (d :: L)
        = L.foldl (fun a d => match f d with | some v => some v | none => a)
            (match f d with | some v => some v | none => none) := rfl
    rw [h0, ih]
    cases lastVal f L
    · cases f d <;> rfl
    · rfl

theorem foldl_merge_get {β : Type} (get : Style → β) (f : Declaration → Option β)
    (h : ∀ s d, get (Style.merge s d) = match f d with | some v => v | none => get s) :
    ∀ (L : List Declaration) (s : Style),
      get (L.foldl Style.merge s)
        = match lastVal f L with | some v => v | none => get s := by
  intro L
  induction L with
  | nil => intro s; rfl
  | cons d L ih =>
    intro s
    simp only [List.foldl_cons]
    rw [ih (Style.merge s d), h s d]
    have h0 : lastVal f (d :: L)
        = L.foldl (fun a d => match f d with | some v => some v | none => a)
            (match f d with | some v => some v | none => none) := rfl
    rw [h0, lastVal_foldl]
    cases lastVal f L
    · cases f d <;> rfl
    · rfl

theorem merge_field_stable {β : Type} (get : Style → β) (f : Declaration → Option β)
    (h : ∀ s d, get (Style.merge s d) = match f d with | some v => v | none => get s)
    (L : List Declaration) (s t : Style)
    (hts : get t = get (L.foldl Style.merge s)) :
    get (L.foldl Style.merge t) = get (L.foldl Style.merge s) := by
  rw [foldl_merge_get get f h, hts]
  cases h2 : lastVal f L
  · rw [foldl_merge_get get f h, h2]
  · rw [foldl_merge_get get f h, h2]

theorem foldl_merge_idem (L : List Declaration) (s : Style) :
    L.foldl Style.merge (L.foldl Style.merge s) = L.foldl Style.merge s := by
  apply style_ext
  · exact merge_field_stable (fun st => st.display)
      (fun d => match d with | .displayDecl v => some v | _ => none)
      (by intro s d; cases d <;> rfl) L s _ rfl
  · exact merge_field_stable (fun st => st.flex_direction)
      (fun d => match d with | .flexDirectionDecl v => some v | _ => none)
      (by intro s d; cases d <;> rfl) L s _ rfl
  · exact merge_field_stable (fun st => st.flex_wrap)
      (fun d => match d with | .flexWrapDecl v => some v | _ => none)
      (by intro s d; cases d <;> rfl) L s _ rfl
  · exact merge_field_stable (fun st => st.justify_content)
      (fun d => match d with | .justifyContentDecl v => some v | _ => none)
      (by intro s d; cases d <;> rfl) L s _ rfl
  · exact merge_field_stable (fun st => st.align_items)
      (fun d => match d with | .alignItemsDecl v => some v | _ => none)
      (by intro s d; cases d <;> rfl) L s _ rfl
  · exact merge_field_stable (fun st => st.align_self)
      (fun d => match d with | .alignSelfDecl v => some v | _ => none)
      (by intro s d; cases d <;> rfl) L s _ rfl
  · exact merge_field_stable (fun st => st.order)
      (fun d => match d with | .orderDecl v => some v | _ => none)
      (by intro s d; cases d <;> rfl) L s _ rfl
  · exact merge_field_stable (fun st => st.flex_grow)
      (fun d => match d with | .flexGrowDecl v => some v | _ => none)
      (by intro s d; cases d <;> rfl) L s _ rfl
  · exact merge_field_stable (fun st => st.flex_shrink)
      (fun d => match d with | .flexShrinkDecl v => some v | _ => none)
      (by intro s d; cases d <;> rfl) L s _ rfl
  · exact merge_field_stable (fun st => st.flex_basis)
      (fun d => match d with | .flexBasisDecl v => some v | _ => none)
      (by intro s d; cases d <;> rfl) L s _ rfl
  · exact merge_field_stable (fun st => st.width)
      (fun d => match d with | .widthDecl v => some v | _ => none)
      (by intro s d; cases d <;> rfl) L s _ rfl
  · exact merge_field_stable (fun st => st.height)
      (fun d => match d with | .heightDecl v => some v | _ => none)
      (by intro s d; cases d <;> rfl) L s _ rfl
  · exact merge_field_stable (fun st => st.gap)
      (fun d => match d with | .gapDecl v => some v | _ => none)
      (by intro s d; cases d <;> rfl) L s _ rfl
  · exact merge_field_stable (fun st => st.row_gap)
      (fun d => match d with | .rowGapDecl v => some v | _ => none)
      (by intro s d; cases d <;> rfl) L s _ rfl
  · exact merge_field_stable (fun st => st.column_gap)
      (fun d => match d with | .columnGapDecl v => some v | _ => none)
      (by intro s d; cases d <;> rfl) L s _ rfl
  · exact merge_field_stable (fun st => st.padding)
      (fun d => match d with | .paddingDecl v => some v | _ => none)
      (by intro s d; cases d <;> rfl) L s _ rfl
  · exact merge_field_stable (fun st => st.border_width)
      (fun d => match d with | .borderWidthDecl v => some v | _ => none)
      (by intro s d; cases d <;> rfl) L s _ rfl

theorem foldl_merge_display_absorb (L : List Declaration) (s : Style)
    (d₀ d : Option Display) :
    { (L.foldl Style.merge { (L.foldl Style.merge s) with display := d₀ })
        with display := d }
      = { (L.foldl Style.merge s) with display := d } := by
  apply style_ext
  · rfl
  · exact merge_field_stable (fun st => st.flex_direction)
      (fun d => match d with | .flexDirectionDecl v => some v | _ => none)
      (by intro s d; cases d <;> rfl) L s _ rfl
  · exact merge_field_stable (fun st => st.flex_wrap)
      (fun d => match d with | .flexWrapDecl v => some v | _ => none)
      (by intro s d; cases d <;> rfl) L s _ rfl
  · exact merge_field_stable (fun st => st.justify_content)
      (fun d => match d with | .justifyContentDecl v => some v | _ => none)
      (by intro s d; cases d <;> rfl) L s _ rfl
  · exact merge_field_stable (fun st => st.align_items)
      (fun d => match d with | .alignItemsDecl v => some v | _ => none)
      (by intro s d; cases d <;> rfl) L s _ rfl
  · exact merge_field_stable (fun st => st.align_self)
      (fun d => match d with | .alignSelfDecl v => some v | _ => none)
      (by intro s d; cases d <;> rfl) L s _ rfl
  · exact merge_field_stable (fun st => st.order)
      (fun d => match d with | .orderDecl v => some v | _ => none)
      (by intro s d; cases d <;> rfl) L s _ rfl
  · exact merge_field_stable (fun st => st.flex_grow)
      (fun d => match d with | .flexGrowDecl v => some v | _ => none)
      (by intro s d; cases d <;> rfl) L s _ rfl
  · exact merge_field_stable (fun st => st.flex_shrink)
      (fun d => match d with | .flexShrinkDecl v => some v | _ => none)
      (by intro s d; cases d <;> rfl) L s _ rfl
  · exact merge_field_stable (fun st => st.flex_basis)
      (fun d => match d with | .flexBasisDecl v => some v | _ => none)
      (by intro s d; cases d <;> rfl) L s _ rfl
  · exact merge_field_stable (fun st => st.width)
      (fun d => match d with | .widthDecl v => some v | _ => none)
      (by intro s d; cases d <;> rfl) L s _ rfl
  · exact merge_field_stable (fun st => st.height)
      (fun d => match d with | .heightDecl v => some v | _ => none)
      (by intro s d; cases d <;> rfl) L s _ rfl
  · exact merge_field_stable (fun st => st.gap)
      (fun d => match d with | .gapDecl v => some v | _ => none)
      (by intro s d; cases d <;> rfl) L s _ rfl
  · exact merge_field_stable (fun st => st.row_gap)
      (fun d => match d with | .rowGapDecl v => some v | _ => none)
      (by intro s d; cases d <;> rfl) L s _ rfl
  · exact merge_field_stable (fun st => st.column_gap)
      (fun d => match d with | .columnGapDecl v => some v | _ => none)
      (by intro s d; cases d <;> rfl) L s _ rfl
  · exact merge_field_stable (fun st => st.padding)
      (fun d => match d with | .paddingDecl v => some v | _ => none)
      (by intro s d; cases d <;> rfl) L s _ rfl
  · exact merge_field_stable (fun st => st.border_width)
      (fun d => match d with | .borderWidthDecl v => some v | _ => none)
      (by intro s d; cases d <;> rfl) L s _ rfl

theorem applyClassRules_eq_foldl (sheet : Sheet) (ca : String) (s : Style) :
    applyClassRules sheet ca s
      = (classDecls sheet (splitWhitespace ca)).foldl Style.merge s := by
  unfold applyClassRules
  generalize splitWhitespace ca = names
  induction names generalizing s with
  | nil => rfl
  | cons cn rest ih =>
    simp only [List.foldl_cons, classDecls, List.foldl_append]
    cases sheet.find? (fun rule => rule.selector == Selector.Class cn) with
    | none => simpa using ih s
    | some rule => simpa using ih (rule.declarations.foldl Style.merge s)

theorem resolveStyle_congr (sheet : Sheet) (fb : Style) (n n' : Node)
    (hattr : n'.attributes = n.attributes)
    (hch : n'.children.isEmpty = n.children.isEmpty)
    (hst : n'.layout.style = n.layout.style) :
    resolveStyle sheet fb n' = resolveStyle sheet fb n := by
  have hga : getAttr n' "class" = getAttr n "class" := by
    unfold getAttr
    rw [hattr]
  simp only [resolveStyle, hga, hattr, hch, hst]

theorem resolveStyle_eq (sheet : Sheet) (fb : Style) (n : Node) :
    resolveStyle sheet fb n
      = (if n.attributes.isEmpty && n.children.isEmpty
         then { (match getAttr n "class" with
                 | some ca => applyClassRules sheet ca n.layout.style
                 | none => n.layout.style) with display := fb.display }
         else (match getAttr n "class" with
               | some ca => applyClassRules sheet ca n.layout.style
               | none => n.layout.style)) := by
  unfold resolveStyle
  cases getAttr n "class" <;> rfl

theorem resolveStyle_idem (sheet : Sheet) (fb₀ fb : Style) (n n' : Node)
    (hattr : n'.attributes = n.attributes)
    (hch : n'.children.isEmpty = n.children.isEmpty)
    (hst : n'.layout.style = resolveStyle sheet fb₀ n) :
    resolveStyle sheet fb n' = resolveStyle sheet fb n := by
  have hga : getAttr n' "class" = getAttr n "class" := by
    unfold getAttr
    rw [hattr]
  have hcond : (n'.attributes.isEmpty && n'.children.isEmpty)
      = (n.attributes.isEmpty && n.children.isEmpty) := by
    rw [hattr, hch]
  rw [resolveStyle_eq sheet fb n', resolveStyle_eq sheet fb n]
  rw [hga, hcond, hst]
  rw [resolveStyle_eq sheet fb₀ n]
  cases hca : getAttr n "class" with
  | none =>
    cases hanon : (n.attributes.isEmpty && n.children.isEmpty) with
    | false => simp
    | true => simp
  | some ca =>
    cases hanon : (n.attributes.isEmpty && n.children.isEmpty) with
    | false =>
      simp only [Bool.false_eq_true, if_false]
      simp only [applyClassRules_eq_foldl]
      exact foldl_merge_idem _ _
    | true =>
      simp only [if_true]
      simp only [applyClassRules_eq_foldl]
      exact foldl_merge_display_absorb _ _ _ _

/-! ## C9: structural preservation and provenance -/

theorem Node.withLayout_text (n : Node) (l : LayoutRecord) : (n.withLayout l).text = n.text := by
  cases n; rfl

theorem Node.withLayout_attributes (n : Node) (l : LayoutRecord) :
    (n.withLayout l).attributes = n.attributes := by
  cases n; rfl

theorem Node.withLayout_children (n : Node) (l : LayoutRecord) :
    (n.withLayout l).children = n.children := by
  cases n; rfl

theorem Node.withChildren_text (n : Node) (c : List Node) : (n.withChildren c).text = n.text := by
  cases n; rfl

theorem Node.withChildren_attributes (n : Node) (c : List Node) :
    (n.withChildren c).attributes = n.attributes := by
  cases n; rfl

theorem Node.withChildren_children (n : Node) (c : List Node) :
    (n.withChildren c).children = c := by
  cases n; rfl

theorem updatesApply_length (ups : List (Nat × Node)) :
    ∀ l : List Node, (updatesApply l ups).length = l.length := by
  induction ups with
  | nil => intro l; rfl
  | cons u ups ih =>
    intro l
    show (updatesApply (l.set u.1 u.2) ups).length = l.length
    rw [ih (l.set u.1 u.2), List.length_set]

theorem setPos_struct (n : Node) (x y : ℚ) :
    (setPos n x y).text = n.text ∧ (setPos n x y).attributes = n.attributes ∧
    (setPos n x y).children = n.children ∧
    (setPos n x y).layout.style = n.layout.style := by
  cases n
  exact ⟨rfl, rfl, rfl, rfl⟩

theorem sizeLeafFromStyle_struct (n : Node) :
    (sizeLeafFromStyle n).text = n.text ∧ (sizeLeafFromStyle n).attributes = n.attributes ∧
    (sizeLeafFromStyle n).children = n.children ∧
    (sizeLeafFromStyle n).layout.style = n.layout.style := by
  cases n
  exact ⟨rfl, rfl, rfl, rfl⟩

theorem layoutFlexChildrenWith_struct (recurse : Node → ℚ → ℚ → Node) (sheet : Sheet)
    (cs : Style) (c : Node) :
    (layoutFlexChildrenWith recurse sheet cs c).text = c.text ∧
    (layoutFlexChildrenWith recurse sheet cs c).attributes = c.attributes ∧
    (layoutFlexChildrenWith recurse sheet cs c).layout = c.layout ∧
    (layoutFlexChildrenWith recurse sheet cs c).children.length = c.children.length := by
  simp only [layoutFlexChildrenWith]
  split
  · exact ⟨rfl, rfl, rfl, rfl⟩
  · exact ⟨Node.withChildren_text c _, Node.withChildren_attributes c _,
      Node.withChildren_layout c _,
      by rw [Node.withChildren_children]; exact updatesApply_length _ _⟩

theorem layoutNode_struct (sheet : Sheet) (fuel : Nat) (n : Node) (x y : ℚ) :
    (layoutNode sheet fuel n x y).text = n.text ∧
    (layoutNode sheet fuel n x y).attributes = n.attributes ∧
    (layoutNode sheet fuel n x y).layout.style = n.layout.style ∧
    (layoutNode sheet fuel n x y).children.length = n.children.length := by
  obtain ⟨ht, ha, hc, hs⟩ := setPos_struct n x y
  cases fuel with
  | zero => exact ⟨ht, ha, hs, congrArg List.length hc⟩
  | succ k =>
    simp only [layoutNode]
    split
    · obtain ⟨ht2, ha2, hc2, hs2⟩ := sizeLeafFromStyle_struct (setPos n x y)
      exact ⟨ht2.trans ht, ha2.trans ha, hs2.trans hs, by rw [hc2, hc]⟩
    · split
      · obtain ⟨ht2, ha2, hl2, hc2⟩ := layoutFlexChildrenWith_struct
          (layoutNode sheet k) sheet (setPos n x y).layout.style (setPos n x y)
        refine ⟨ht2.trans ht, ha2.trans ha, ?_, by rw [hc2, hc]⟩
        rw [hl2]
        exact hs
      · exact ⟨ht, ha, hs, by rw [hc]⟩

theorem mem_insertSorted (key : Node → Int) (x : Nat × Node) :
    ∀ (l : List (Nat × Node)) (y : Nat × Node),
      y ∈ insertSorted key x l → y = x ∨ y ∈ l := by
  intro l
  induction l with
  | nil =>
    intro y hy
    simp [insertSorted] at hy
    exact Or.inl hy
  | cons z zs ih =>
    intro y hy
    simp only [insertSorted] at hy
    split_ifs at hy
    · rcases List.mem_cons.mp hy with rfl | hy
      · exact Or.inr (List.mem_cons_self _ _)
      · rcases ih y hy with h | h
        · exact Or.inl h
        · exact Or.inr (List.mem_cons_of_mem _ h)
    · rcases List.mem_cons.mp hy with rfl | hy
      · exact Or.inl rfl
      · exact Or.inr hy

theorem mem_sortByOrder (key : Node → Int) :
    ∀ (l : List (Nat × Node)) (p : Nat × Node), p ∈ sortByOrder key l → p ∈ l := by
  intro l
  induction l with
  | nil => intro p hp; exact absurd hp (by simp [sortByOrder])
  | cons x xs ih =>
    intro p hp
    have hp' : p ∈ insertSorted key x (sortByOrder key xs) := hp
    rcases mem_insertSorted key x _ p hp' with rfl | hp2
    · exact List.mem_cons_self _ _
    · exact List.mem_cons_of_mem _ (ih p hp2)

theorem enum_mem_get (l : List Node) (p : Nat × Node) (hp : p ∈ l.enum) :
    ∃ h : p.1 < l.length, l.get ⟨p.1, h⟩ = p.2 := by
  obtain ⟨i, hi, hgot⟩ := List.mem_iff_getElem.mp hp
  have hil : i < l.length := by simpa [List.enum, List.enumFrom_length] using hi
  have : l.enum[i] = (i, l.get ⟨i, hil⟩) := by
    simp [List.enum, List.getElem_enumFrom, List.get_eq_getElem]
  rw [this] at hgot
  obtain rfl := hgot.symm
  exact ⟨hil, rfl⟩

theorem collectItems_src (sheet : Sheet) (cs : Style) (d : FlexDirection)
    (sorted : List (Nat × Node)) (it : FlexItem)
    (h : it ∈ collectItems sheet cs d sorted) :
    ∃ p ∈ sorted, it.nodeIdx = p.1 ∧ it.node = p.2 ∧
      it.style = resolveStyle sheet cs p.2 := by
  simp only [collectItems, List.mem_filterMap] at h
  obtain ⟨p, hmem, hf⟩ := h
  by_cases hd : isDroppedWhitespaceText p.2
  · rw [if_pos hd] at hf
    exact absurd hf (by simp)
  · rw [if_neg hd] at hf
    obtain rfl := (Option.some.injEq _ _).mp hf
    exact ⟨p, hmem, rfl, rfl, rfl⟩

theorem resolveLineMain_src (availableMain mainGap : ℚ) (line : List FlexItem)
    (it' : FlexItem) (h : it' ∈ resolveLineMain availableMain mainGap line) :
    ∃ it ∈ line, it'.node = it.node ∧ it'.nodeIdx = it.nodeIdx ∧
      it'.style = it.style := by
  simp only [resolveLineMain] at h
  split_ifs at h
  · obtain ⟨it, hm, rfl⟩ := List.mem_map.mp h
    exact ⟨it, hm, rfl, rfl, rfl⟩
  · exact ⟨it', h, rfl, rfl, rfl⟩
  · obtain ⟨it, hm, rfl⟩ := List.mem_map.mp h
    exact ⟨it, hm, rfl, rfl, rfl⟩
  · exact ⟨it', h, rfl, rfl, rfl⟩
  · exact ⟨it', h, rfl, rfl, rfl⟩

theorem applyStretch_src (a : AlignItems) (d : FlexDirection) (lc : ℚ)
    (l : List FlexItem) (it' : FlexItem) (h : it' ∈ applyStretch a d lc l) :
    ∃ it ∈ l, it'.node = it.node ∧ it'.nodeIdx = it.nodeIdx ∧
      it'.style = it.style := by
  simp only [applyStretch, List.mem_map] at h
  obtain ⟨it, hm, rfl⟩ := h
  refine ⟨it, hm, ?_, ?_, ?_⟩ <;> split_ifs <;> rfl

theorem mem_placeLine (recurse : Node → ℚ → ℚ → Node) (d : FlexDirection)
    (a : AlignItems) (cx cy off lc bg : ℚ) :
    ∀ (line : List FlexItem) (cursor : ℚ) (u : Nat × Node),
      u ∈ placeLine recurse d a cx cy off lc bg cursor line →
      ∃ it ∈ line, ∃ r, u = (it.nodeIdx, applyItemWrites recurse it r) := by
  intro line
  induction line with
  | nil => intro cursor u hu; exact absurd hu (by simp [placeLine])
  | cons it rest ih =>
    intro cursor u hu
    simp only [placeLine] at hu
    rcases List.mem_cons.mp hu with rfl | hu
    · exact ⟨it, List.mem_cons_self _ _, _, rfl⟩
    · obtain ⟨jt, hm, r, hr⟩ := ih _ u hu
      exact ⟨jt, List.mem_cons_of_mem _ hm, r, hr⟩

theorem mem_processLine (recurse : Node → ℚ → ℚ → Node) (d : FlexDirection)
    (a : AlignItems) (j : JustifyContent) (am mg : ℚ) (sd : Bool) (ac cx cy off : ℚ)
    (line : List FlexItem) (u : Nat × Node)
    (hu : u ∈ (processLine recurse d a j am mg sd ac cx cy off line).1) :
    ∃ it', (∃ it ∈ line, it'.node = it.node ∧ it'.nodeIdx = it.nodeIdx ∧
      it'.style = it.style) ∧ ∃ r, u = (it'.nodeIdx, applyItemWrites recurse it' r) := by
  simp only [processLine] at hu
  obtain ⟨it₂, hm₂, r, hr⟩ := mem_placeLine recurse d a cx cy off _ _ _ _ u hu
  obtain ⟨it₁, hm₁, hn₁, hi₁, hs₁⟩ := applyStretch_src _ _ _ _ _ hm₂
  obtain ⟨it₀, hm₀, hn₀, hi₀, hs₀⟩ := resolveLineMain_src _ _ _ _ hm₁
  exact ⟨it₂, ⟨it₀, hm₀, hn₁.trans hn₀, hi₁.trans hi₀, hs₁.trans hs₀⟩, r, hr⟩

theorem formLines_eq_go (canWrap : Bool) (availableMain mainGap : ℚ)
    (items : List FlexItem) :
    formLines canWrap availableMain mainGap items
      = formLinesGo canWrap availableMain mainGap [] items := by
  have h := foldl_lineStep_eq_go canWrap availableMain mainGap items ⟨[], [], 0⟩
    (by simp [totalMainWithGaps])
  simpa [formLines] using h

theorem formLines_flatten (canWrap : Bool) (availableMain mainGap : ℚ)
    (items : List FlexItem) :
    (formLines canWrap availableMain mainGap items).flatten = items := by
  rw [formLines_eq_go]
  exact go_join canWrap availableMain mainGap items []

/-! ## C9: the pass preserves resolve-equivalence of children -/

theorem isEmpty_of_length_eq {α : Type} {l₁ l₂ : List α} (h : l₁.length = l₂.length) :
    l₁.isEmpty = l₂.isEmpty := by
  cases l₁ <;> cases l₂ <;> simp_all

theorem forall₂_set {P : Node → Node → Prop} (children l : List Node)
    (h : List.Forall₂ P children l) (i : Nat) (v : Node)
    (hv : ∀ hi : i < children.length, P (children.get ⟨i, hi⟩) v) :
    List.Forall₂ P children (l.set i v) := by
  rw [List.forall₂_iff_get] at h ⊢
  obtain ⟨hlen, hget⟩ := h
  refine ⟨by rw [List.length_set]; exact hlen, ?_⟩
  intro j h1 h2
  have h2' : j < l.length := by simpa using h2
  have hj : (l.set i v).get ⟨j, h2⟩ = if i = j then v else l.get ⟨j, h2'⟩ := by
    simp [List.get_eq_getElem, List.getElem_set]
  rw [hj]
  by_cases hij : i = j
  · rw [if_pos hij]
    subst hij
    exact hv h1
  · rw [if_neg hij]
    exact hget j h1 h2'

theorem forall₂_setFold {P : Node → Node → Prop} :
    ∀ (ups : List (Nat × Node)) (children l : List Node),
      List.Forall₂ P children l →
      (∀ u ∈ ups, ∀ hu : u.1 < children.length, P (children.get ⟨u.1, hu⟩) u.2) →
      List.Forall₂ P children (ups.foldl (fun cs u => cs.set u.1 u.2) l) := by
  intro ups
  induction ups with
  | nil =>
    intro children l h _
    exact h
  | cons u ups ih =>
    intro children l h hv
    simp only [List.foldl_cons]
    apply ih
    · exact forall₂_set children l h u.1 u.2 (fun hi => hv u (List.mem_cons_self _ _) hi)
    · intro w hw hwi
      exact hv w (List.mem_cons_of_mem _ hw) hwi

theorem forall₂_updatesApply {P : Node → Node → Prop} (children : List Node)
    (ups : List (Nat × Node)) (href : List.Forall₂ P children children)
    (hv : ∀ u ∈ ups, ∀ hu : u.1 < children.length, P (children.get ⟨u.1, hu⟩) u.2) :
    List.Forall₂ P children (updatesApply children ups) :=
  forall₂_setFold ups children children href hv

theorem mem_linesFold (recurse : Node → ℚ → ℚ → Node) (d : FlexDirection)
    (a : AlignItems) (j : JustifyContent) (am mg : ℚ) (sd : Bool)
    (ac cx cy cg : ℚ) :
    ∀ (lines : List (List FlexItem)) (acc : List (Nat × Node) × ℚ) (u : Nat × Node),
      u ∈ (lines.foldl (fun acc line =>
        (acc.1 ++ (processLine recurse d a j am mg sd ac cx cy acc.2 line).1,
          acc.2 + (processLine recurse d a j am mg sd ac cx cy acc.2 line).2 + cg))
        acc).1 →
      u ∈ acc.1 ∨ ∃ line ∈ lines, ∃ off,
        u ∈ (processLine recurse d a j am mg sd ac cx cy off line).1 := by
  intro lines
  induction lines with
  | nil =>
    intro acc u hu
    exact Or.inl hu
  | cons line lines ih =>
    intro acc u hu
    simp only [List.foldl_cons] at hu
    rcases ih _ u hu with hmem | ⟨line', hline', off, hoff⟩
    · rcases List.mem_append.mp hmem with hmem | hmem
      · exact Or.inl hmem
      · exact Or.inr ⟨line, List.mem_cons_self _ _, acc.2, hmem⟩
    · exact Or.inr ⟨line', List.mem_cons_of_mem _ hline', off, hoff⟩

theorem applyItemWrites_re (sheet : Sheet) (recurse : Node → ℚ → ℚ → Node)
    (hrec : ∀ n x y, ResolveEquiv sheet n (recurse n x y))
    (cs : Style) (it : FlexItem) (r : Rect)
    (hstyle : it.style = resolveStyle sheet cs it.node) :
    ResolveEquiv sheet it.node (applyItemWrites recurse it r) := by
  simp only [applyItemWrites]
  obtain ⟨ht, ha, hlen, _, hch⟩ :=
    hrec (it.node.withLayout { bounds := r, style := it.style }) r.x r.y
  rw [Node.withLayout_text] at ht
  rw [Node.withLayout_attributes] at ha
  rw [Node.withLayout_children] at hlen
  refine ⟨?_, ?_, ?_, ?_, ?_⟩
  · rw [Node.withLayout_text]
    exact ht
  · rw [Node.withLayout_attributes]
    exact ha
  · rw [Node.withLayout_children]
    exact hlen
  · intro fb
    apply resolveStyle_idem sheet cs fb
    · rw [Node.withLayout_attributes]
      exact ha
    · rw [Node.withLayout_children]
      exact isEmpty_of_length_eq hlen
    · rw [Node.withLayout_layout]
      exact hstyle
  · rw [Node.withLayout_children]
    rw [Node.withLayout_children] at hch
    exact hch

theorem pass_re (sheet : Sheet) (recurse : Node → ℚ → ℚ → Node)
    (hrec : ∀ n x y, ResolveEquiv sheet n (recurse n x y))
    (cs : Style) (c : Node) :
    List.Forall₂ (ResolveEquiv sheet) c.children
      (layoutFlexChildrenWith recurse sheet cs c).children := by
  have href : List.Forall₂ (ResolveEquiv sheet) c.children c.children := by
    rw [List.forall₂_same]
    intro nd _
    exact ⟨rfl, rfl, rfl, fun fb => rfl, by rw [List.forall₂_same]; exact fun g _ fb => rfl⟩
  simp only [layoutFlexChildrenWith]
  split
  · exact href
  · rw [Node.withChildren_children]
    apply forall₂_updatesApply c.children _ href
    intro u hu hul
    rcases mem_linesFold recurse _ _ _ _ _ _ _ _ _ _ _ _ u hu with hnil | ⟨line, hline, off, humem⟩
    · exact absurd hnil (by simp)
    · obtain ⟨it', ⟨it₀, hit₀, hn, hi, hs⟩, r, hur⟩ :=
        mem_processLine recurse _ _ _ _ _ _ _ _ _ _ _ _ humem
      have hitems : it₀ ∈ collectItems sheet cs (cs.flex_direction.getD FlexDirection.Row)
          (sortByOrder (orderKey sheet cs) c.children.enum) := by
        have hmem := List.mem_flatten.mpr ⟨line, hline, hit₀⟩
        rwa [formLines_flatten] at hmem
      obtain ⟨p, hpsorted, hidx, hnode, hstyle⟩ := collectItems_src _ _ _ _ _ hitems
      have hpen : p ∈ c.children.enum := mem_sortByOrder _ _ p hpsorted
      obtain ⟨hplen, hpget⟩ := enum_mem_get c.children p hpen
      subst hur
      have hidx2 : it'.nodeIdx = p.1 := hi.trans hidx
      have hget2 : c.children.get ⟨it'.nodeIdx, hul⟩ = p.2 := by
        have hfin : (⟨it'.nodeIdx, hul⟩ : Fin c.children.length) = ⟨p.1, hplen⟩ :=
          Fin.ext hidx2
        rw [hfin, hpget]
      rw [hget2]
      have hnode2 : it'.node = p.2 := hn.trans hnode
      have hstyle2 : it'.style = resolveStyle sheet cs it'.node := by
        rw [hnode2]
        exact hs.trans hstyle
      rw [← hnode2]
      exact applyItemWrites_re sheet recurse hrec cs it' r hstyle2

theorem layoutNode_re (sheet : Sheet) :
    ∀ (fuel : Nat) (n : Node) (x y : ℚ),
      ResolveEquiv sheet n (layoutNode sheet fuel n x y) := by
  intro fuel
  induction fuel with
  | zero =>
    intro n x y
    simp only [layoutNode]
    obtain ⟨ht, ha, hc, hs⟩ := setPos_struct n x y
    exact ⟨ht, ha, by rw [hc],
      fun fb => resolveStyle_congr sheet fb n _ ha (by rw [hc]) hs,
      by rw [hc]; rw [List.forall₂_same]; exact fun g _ fb => rfl⟩
  | succ k ih =>
    intro n x y
    simp only [layoutNode]
    obtain ⟨ht, ha, hc, hs⟩ := setPos_struct n x y
    split
    · obtain ⟨ht2, ha2, hc2, hs2⟩ := sizeLeafFromStyle_struct (setPos n x y)
      exact ⟨ht2.trans ht, ha2.trans ha, by rw [hc2, hc],
        fun fb => resolveStyle_congr sheet fb n _ (ha2.trans ha) (by rw [hc2, hc])
          (hs2.trans hs),
        by rw [hc2, hc]; rw [List.forall₂_same]; exact fun g _ fb => rfl⟩
    · split
      · have hpass := pass_re sheet (layoutNode sheet k) ih
          ((setPos n x y).layout.style) (setPos n x y)
        obtain ⟨ht2, ha2, hl2, hlen2⟩ := layoutFlexChildrenWith_struct
          (layoutNode sheet k) sheet ((setPos n x y).layout.style) (setPos n x y)
        refine ⟨ht2.trans ht, ha2.trans ha, ?_, ?_, ?_⟩
        · rw [hlen2, hc]
        · intro fb
          apply resolveStyle_congr sheet fb n _ (ha2.trans ha)
          · have h1 : (setPos n x y).children.isEmpty = n.children.isEmpty := by
              rw [hc]
            exact (isEmpty_of_length_eq hlen2).trans h1
          · rw [hl2]
            exact hs
        · have hproj := List.Forall₂.imp
            (fun g g' (re : ResolveEquiv sheet g g') => re.2.2.2.1) hpass
          rw [hc] at hproj
          exact hproj
      · exact ⟨ht, ha, by rw [hc],
          fun fb => resolveStyle_congr sheet fb n _ ha (by rw [hc]) hs,
          by rw [hc]; rw [List.forall₂_same]; exact fun g _ fb => rfl⟩

/-! ## C9: the pass in terms of its named components -/

theorem layoutFlexChildrenWith_eq (recurse : Node → ℚ → ℚ → Node) (sheet : Sheet)
    (cs : Style) (c : Node) :
    layoutFlexChildrenWith recurse sheet cs c
      = if (passItems sheet cs c).isEmpty then c
        else c.withChildren
          (updatesApply c.children (passFold recurse sheet cs c).1) := rfl

theorem pass_collect_empty (recurse : Node → ℚ → ℚ → Node) (sheet : Sheet)
    (cs : Style) (c : Node) (h : (passItems sheet cs c).isEmpty = true) :
    layoutFlexChildrenWith recurse sheet cs c = c := by
  rw [layoutFlexChildrenWith_eq, if_pos h]

/-! ## C9: view congruence through the scalar pipeline -/

theorem map_eq_of_forall₂ {α β : Type} {R : α → α → Prop} (f g : α → β)
    (hf : ∀ a b, R a b → f a = g b) :
    ∀ {l₁ l₂ : List α}, List.Forall₂ R l₁ l₂ → l₁.map f = l₂.map g := by
  intro l₁ l₂ h
  induction h with
  | nil => rfl
  | cons hab _ ih => simp [hf _ _ hab, ih]

theorem forall₂_isEmpty {α : Type} {R : α → α → Prop} {l₁ l₂ : List α}
    (h : List.Forall₂ R l₁ l₂) : l₁.isEmpty = l₂.isEmpty := by
  cases h <;> rfl

theorem forall₂_length {α : Type} {R : α → α → Prop} {l₁ l₂ : List α}
    (h : List.Forall₂ R l₁ l₂) : l₁.length = l₂.length :=
  List.Forall₂.length_eq h

theorem forall₂_map_map {R : FlexItem → FlexItem → Prop} {f g : FlexItem → FlexItem}
    {l₁ l₂ : List FlexItem} (h : List.Forall₂ R l₁ l₂)
    (hfg : ∀ a b, R a b → R (f a) (g b)) :
    List.Forall₂ R (l₁.map f) (l₂.map g) := by
  induction h with
  | nil => exact List.Forall₂.nil
  | cons hab _ ih => exact List.Forall₂.cons (hfg _ _ hab) ih

theorem viewEq_base_main {l₁ l₂ : List FlexItem} (h : List.Forall₂ ViewEq l₁ l₂) :
    l₁.map (fun it => it.base_main) = l₂.map (fun it => it.base_main) :=
  map_eq_of_forall₂ _ _ (fun a b hab => hab.2.2.1) h

theorem viewEq_final_main {l₁ l₂ : List FlexItem} (h : List.Forall₂ ViewEq l₁ l₂) :
    l₁.map (fun it => it.final_main) = l₂.map (fun it => it.final_main) :=
  map_eq_of_forall₂ _ _ (fun a b hab => hab.2.2.2.2.1) h

theorem viewEq_final_cross {l₁ l₂ : List FlexItem} (h : List.Forall₂ ViewEq l₁ l₂) :
    l₁.map (fun it => it.final_cross) = l₂.map (fun it => it.final_cross) :=
  map_eq_of_forall₂ _ _ (fun a b hab => hab.2.2.2.2.2) h

theorem viewEq_grow {l₁ l₂ : List FlexItem} (h : List.Forall₂ ViewEq l₁ l₂) :
    l₁.map growFactor = l₂.map growFactor :=
  map_eq_of_forall₂ _ _ (fun a b hab => by unfold growFactor; rw [hab.2.1]) h

theorem viewEq_shrinkWeight {l₁ l₂ : List FlexItem} (h : List.Forall₂ ViewEq l₁ l₂) :
    l₁.map shrinkWeight = l₂.map shrinkWeight :=
  map_eq_of_forall₂ _ _
    (fun a b hab => by unfold shrinkWeight; rw [hab.2.1, hab.2.2.1]) h

theorem resolveLineMain_cong (am mg : ℚ) {l₁ l₂ : List FlexItem}
    (h : List.Forall₂ ViewEq l₁ l₂) :
    List.Forall₂ ViewEq (resolveLineMain am mg l₁) (resolveLineMain am mg l₂) := by
  have hb := viewEq_base_main h
  have hg := viewEq_grow h
  have hs := viewEq_shrinkWeight h
  simp only [resolveLineMain, ← hb, ← hg, ← hs]
  split_ifs
  · refine forall₂_map_map h (fun a b hab => ?_)
    obtain ⟨h1, h2, h3, h4, h5, h6⟩ := hab
    exact ⟨h1, h2, h3, h4, by simp only [growFactor, h2, h3], h6⟩
  · exact h
  · refine forall₂_map_map h (fun a b hab => ?_)
    obtain ⟨h1, h2, h3, h4, h5, h6⟩ := hab
    exact ⟨h1, h2, h3, h4, by simp only [shrinkWeight, h2, h3], h6⟩
  · exact h
  · exact h

theorem applyStretch_cong (a : AlignItems) (d : FlexDirection) (lc : ℚ)
    {l₁ l₂ : List FlexItem} (h : List.Forall₂ ViewEq l₁ l₂) :
    List.Forall₂ ViewEq (applyStretch a d lc l₁) (applyStretch a d lc l₂) := by
  refine forall₂_map_map h (fun p q hpq => ?_)
  obtain ⟨h1, h2, h3, h4, h5, h6⟩ := hpq
  have hcond : (effectiveAlign a q == AlignItems.Stretch
      && crossSizeIsAuto q.style d)
      = (effectiveAlign a p == AlignItems.Stretch && crossSizeIsAuto p.style d) := by
    unfold effectiveAlign
    rw [h2]
  rw [hcond]
  split_ifs
  · exact ⟨h1, h2, h3, h4, h5, rfl⟩
  · exact ⟨h1, h2, h3, h4, h5, h6⟩

theorem lineMaxCross_cong {l₁ l₂ : List FlexItem} (h : List.Forall₂ ViewEq l₁ l₂) :
    lineMaxCross l₁ = lineMaxCross l₂ := by
  unfold lineMaxCross
  rw [viewEq_final_cross h]

theorem placeLine_view_cong (sheet : Sheet) (fuel : Nat) (d : FlexDirection)
    (a : AlignItems) (cx cy off lc bg : ℚ) :
    ∀ (l₁ l₂ : List FlexItem), List.Forall₂ ViewEq l₁ l₂ → ∀ cursor : ℚ,
      boundsView (placeLine (layoutNode sheet fuel) d a cx cy off lc bg cursor l₁)
        = boundsView (placeLine (layoutNode sheet fuel) d a cx cy off lc bg cursor l₂) := by
  intro l₁
  induction l₁ with
  | nil =>
    intro l₂ h cursor
    cases h
    rfl
  | cons x xs ih =>
    intro l₂ h cursor
    cases l₂ with
    | nil => exact absurd h (by intro hh; cases hh)
    | cons y ys =>
      have hxy : ViewEq x y := (List.forall₂_cons.mp h).1
      have hrest : List.Forall₂ ViewEq xs ys := (List.forall₂_cons.mp h).2
      obtain ⟨h1, h2, h3, h4, h5, h6⟩ := hxy
      have ihh := ih ys hrest (cursor + x.final_main + bg)
      simp only [boundsView, placeLine, List.map_cons] at ihh ⊢
      rw [applyItemWrites_bounds, applyItemWrites_bounds]
      have hcp : crossPos a off lc y = crossPos a off lc x := by
        unfold crossPos
        cases a <;> rw [h6]
      have hr : physicalRect d cx cy cursor (crossPos a off lc y) y
          = physicalRect d cx cy cursor (crossPos a off lc x) x := by
        unfold physicalRect
        cases d <;> rw [hcp, h5, h6]
      rw [hr, ← h1, ← h5, ihh]

theorem processLine_cong (sheet : Sheet) (fuel : Nat) (d : FlexDirection)
    (a : AlignItems) (j : JustifyContent) (am mg : ℚ) (sd : Bool)
    (ac cx cy off : ℚ) {l₁ l₂ : List FlexItem} (h : List.Forall₂ ViewEq l₁ l₂) :
    boundsView (processLine (layoutNode sheet fuel) d a j am mg sd ac cx cy off l₁).1
      = boundsView (processLine (layoutNode sheet fuel) d a j am mg sd ac cx cy off l₂).1
    ∧ (processLine (layoutNode sheet fuel) d a j am mg sd ac cx cy off l₁).2
      = (processLine (layoutNode sheet fuel) d a j am mg sd ac cx cy off l₂).2 := by
  have hres : List.Forall₂ ViewEq (resolveLineMain am mg l₁) (resolveLineMain am mg l₂) :=
    resolveLineMain_cong am mg h
  have hlc : lineCrossSizeUsed sd ac (resolveLineMain am mg l₁)
      = lineCrossSizeUsed sd ac (resolveLineMain am mg l₂) := by
    unfold lineCrossSizeUsed
    rw [lineMaxCross_cong hres]
  have hstr : List.Forall₂ ViewEq
      (applyStretch a d (lineCrossSizeUsed sd ac (resolveLineMain am mg l₁))
        (resolveLineMain am mg l₁))
      (applyStretch a d (lineCrossSizeUsed sd ac (resolveLineMain am mg l₂))
        (resolveLineMain am mg l₂)) := by
    rw [← hlc]
    exact applyStretch_cong a d _ hres
  have hused : totalMainWithGaps mg
        ((applyStretch a d (lineCrossSizeUsed sd ac (resolveLineMain am mg l₁))
          (resolveLineMain am mg l₁)).map (fun it => it.final_main))
      = totalMainWithGaps mg
        ((applyStretch a d (lineCrossSizeUsed sd ac (resolveLineMain am mg l₂))
          (resolveLineMain am mg l₂)).map (fun it => it.final_main)) := by
    rw [viewEq_final_main hstr]
  have hlen : (applyStretch a d (lineCrossSizeUsed sd ac (resolveLineMain am mg l₁))
        (resolveLineMain am mg l₁)).length
      = (applyStretch a d (lineCrossSizeUsed sd ac (resolveLineMain am mg l₂))
        (resolveLineMain am mg l₂)).length :=
    forall₂_length hstr
  have hoffs : justifyOffsets j d
        (max (am - totalMainWithGaps mg
          ((applyStretch a d (lineCrossSizeUsed sd ac (resolveLineMain am mg l₁))
            (resolveLineMain am mg l₁)).map (fun it => it.final_main))) 0) mg
        (applyStretch a d (lineCrossSizeUsed sd ac (resolveLineMain am mg l₁))
          (resolveLineMain am mg l₁)).length
      = justifyOffsets j d
        (max (am - totalMainWithGaps mg
          ((applyStretch a d (lineCrossSizeUsed sd ac (resolveLineMain am mg l₂))
            (resolveLineMain am mg l₂)).map (fun it => it.final_main))) 0) mg
        (applyStretch a d (lineCrossSizeUsed sd ac (resolveLineMain am mg l₂))
          (resolveLineMain am mg l₂)).length := by
    rw [hused, hlen]
  constructor
  · simp only [processLine]
    have hgen : ∀ (lc₁ lc₂ bg₁ bg₂ cur₁ cur₂ : ℚ) (m₁ m₂ : List FlexItem),
        lc₁ = lc₂ → bg₁ = bg₂ → cur₁ = cur₂ → List.Forall₂ ViewEq m₁ m₂ →
        boundsView (placeLine (layoutNode sheet fuel) d a cx cy off lc₁ bg₁ cur₁ m₁)
          = boundsView (placeLine (layoutNode sheet fuel) d a cx cy off lc₂ bg₂ cur₂ m₂) := by
      intro lc₁ lc₂ bg₁ bg₂ cur₁ cur₂ m₁ m₂ e1 e2 e3 hm
      subst e1
      subst e2
      subst e3
      exact placeLine_view_cong sheet fuel d a cx cy off lc₁ bg₁ m₁ m₂ hm cur₁
    exact hgen _ _ _ _ _ _ _ _ hlc (congrArg Prod.snd hoffs) (congrArg Prod.fst hoffs) hstr
  · simp only [processLine]
    exact hlc

theorem go_cong (c : Bool) (a g : ℚ) :
    ∀ (items₁ items₂ : List FlexItem), List.Forall₂ ViewEq items₁ items₂ →
      ∀ (cur₁ cur₂ : List FlexItem), List.Forall₂ ViewEq cur₁ cur₂ →
      List.Forall₂ (List.Forall₂ ViewEq)
        (formLinesGo c a g cur₁ items₁) (formLinesGo c a g cur₂ items₂) := by
  intro items₁
  induction items₁ with
  | nil =>
    intro items₂ h cur₁ cur₂ hcur
    cases h
    simp only [formLinesGo]
    rw [forall₂_isEmpty hcur]
    split_ifs
    · exact List.Forall₂.nil
    · exact List.Forall₂.cons hcur List.Forall₂.nil
  | cons x xs ih =>
    intro items₂ h cur₁ cur₂ hcur
    cases items₂ with
    | nil => exact absurd h (by intro hh; cases hh)
    | cons y ys =>
      have hxy : ViewEq x y := (List.forall₂_cons.mp h).1
      have hrest : List.Forall₂ ViewEq xs ys := (List.forall₂_cons.mp h).2
      simp only [formLinesGo]
      have hcond : (c && !cur₂.isEmpty
            && decide (a < totalMainWithGaps g (cur₂.map (fun it => it.base_main))
              + g + y.base_main))
          = (c && !cur₁.isEmpty
            && decide (a < totalMainWithGaps g (cur₁.map (fun it => it.base_main))
              + g + x.base_main)) := by
        rw [forall₂_isEmpty hcur, viewEq_base_main hcur, hxy.2.2.1]
      rw [hcond]
      split_ifs
      · exact List.Forall₂.cons hcur
          (ih ys hrest [x] [y] (List.Forall₂.cons hxy List.Forall₂.nil))
      · exact ih ys hrest (cur₁ ++ [x]) (cur₂ ++ [y])
          (List.rel_append hcur (List.Forall₂.cons hxy List.Forall₂.nil))

theorem formLines_cong (c : Bool) (a g : ℚ) {items₁ items₂ : List FlexItem}
    (h : List.Forall₂ ViewEq items₁ items₂) :
    List.Forall₂ (List.Forall₂ ViewEq)
      (formLines c a g items₁) (formLines c a g items₂) := by
  rw [formLines_eq_go, formLines_eq_go]
  exact go_cong c a g items₁ items₂ h [] [] List.Forall₂.nil

theorem linesFold_cong (sheet : Sheet) (fuel : Nat) (d : FlexDirection)
    (a : AlignItems) (j : JustifyContent) (am mg : ℚ) (sd : Bool)
    (ac cx cy cg : ℚ) :
    ∀ {lines₁ lines₂ : List (List FlexItem)},
      List.Forall₂ (List.Forall₂ ViewEq) lines₁ lines₂ →
      ∀ (acc₁ acc₂ : List (Nat × Node) × ℚ),
        boundsView acc₁.1 = boundsView acc₂.1 → acc₁.2 = acc₂.2 →
        boundsView (lines₁.foldl (fun acc line =>
            (acc.1 ++ (processLine (layoutNode sheet fuel) d a j am mg sd ac cx cy
                acc.2 line).1,
              acc.2 + (processLine (layoutNode sheet fuel) d a j am mg sd ac cx cy
                acc.2 line).2 + cg)) acc₁).1
          = boundsView (lines₂.foldl (fun acc line =>
              (acc.1 ++ (processLine (layoutNode sheet fuel) d a j am mg sd ac cx cy
                  acc.2 line).1,
                acc.2 + (processLine (layoutNode sheet fuel) d a j am mg sd ac cx cy
                  acc.2 line).2 + cg)) acc₂).1 := by
  intro lines₁
  induction lines₁ with
  | nil =>
    intro lines₂ h acc₁ acc₂ hv hoff
    cases h
    exact hv
  | cons line₁ rest₁ ih =>
    intro lines₂ h acc₁ acc₂ hv hoff
    cases lines₂ with
    | nil => exact absurd h (by intro hh; cases hh)
    | cons line₂ rest₂ =>
      have hl : List.Forall₂ ViewEq line₁ line₂ := (List.forall₂_cons.mp h).1
      have hrest : List.Forall₂ (List.Forall₂ ViewEq) rest₁ rest₂ :=
        (List.forall₂_cons.mp h).2
      simp only [List.foldl_cons]
      obtain ⟨hpv, hpc⟩ := processLine_cong sheet fuel d a j am mg sd ac cx cy acc₁.2 hl
      apply ih hrest
      · simp only [boundsView, List.map_append]
        rw [hoff] at hpv
        simp only [boundsView] at hv hpv
        rw [hoff, hv, hpv]
      · rw [hoff] at hpc ⊢
        rw [hpc]

/-! ## C9: item-view congruence of the collection phase -/

theorem forall₂_enumFrom {α : Type} {R : α → α → Prop} :
    ∀ {l₁ l₂ : List α}, List.Forall₂ R l₁ l₂ → ∀ k : Nat,
      List.Forall₂ (fun p q => p.1 = q.1 ∧ R p.2 q.2)
        (l₁.enumFrom k) (l₂.enumFrom k) := by
  intro l₁ l₂ h
  induction h with
  | nil => intro k; exact List.Forall₂.nil
  | cons hab _ ih =>
    intro k
    exact List.Forall₂.cons ⟨rfl, hab⟩ (ih (k + 1))

theorem forall₂_enum {α : Type} {R : α → α → Prop} {l₁ l₂ : List α}
    (h : List.Forall₂ R l₁ l₂) :
    List.Forall₂ (fun p q => p.1 = q.1 ∧ R p.2 q.2) l₁.enum l₂.enum :=
  forall₂_enumFrom h 0

theorem insertSorted_cong (key : Node → Int)
    {S : (Nat × Node) → (Nat × Node) → Prop}
    (hkey : ∀ p q, S p q → key p.2 = key q.2) :
    ∀ {x y : Nat × Node} {l₁ l₂ : List (Nat × Node)}, S x y →
      List.Forall₂ S l₁ l₂ →
      List.Forall₂ S (insertSorted key x l₁) (insertSorted key y l₂) := by
  intro x y l₁ l₂ hxy h
  induction h with
  | nil => exact List.Forall₂.cons hxy List.Forall₂.nil
  | cons hab hrest ih =>
    rename_i a b as bs
    simp only [insertSorted]
    rw [hkey _ _ hab, hkey _ _ hxy]
    split_ifs with hc
    · exact List.Forall₂.cons hab ih
    · exact List.Forall₂.cons hxy (List.Forall₂.cons hab hrest)

theorem sortByOrder_cong (key : Node → Int)
    {S : (Nat × Node) → (Nat × Node) → Prop}
    (hkey : ∀ p q, S p q → key p.2 = key q.2) :
    ∀ {l₁ l₂ : List (Nat × Node)}, List.Forall₂ S l₁ l₂ →
      List.Forall₂ S (sortByOrder key l₁) (sortByOrder key l₂) := by
  intro l₁ l₂ h
  induction h with
  | nil => exact List.Forall₂.nil
  | cons hab _ ih =>
    simp only [sortByOrder, List.foldr_cons]
    exact insertSorted_cong key hkey hab ih

theorem isDropped_congr (sheet : Sheet) {n n' : Node}
    (h : ResolveEquiv sheet n n') :
    isDroppedWhitespaceText n' = isDroppedWhitespaceText n := by
  obtain ⟨ht, ha, hlen, _, _⟩ := h
  simp only [isDroppedWhitespaceText, isTextNodeGuess, ht, ha,
    isEmpty_of_length_eq hlen]

theorem intrinsic_congr (sheet : Sheet) {n n' : Node}
    (h : ResolveEquiv sheet n n') (d : FlexDirection) (fb : Style) :
    intrinsicMainFromChildren n' d sheet fb
      = intrinsicMainFromChildren n d sheet fb := by
  obtain ⟨_, _, hlen, _, hch⟩ := h
  have hmapW : n'.children.map
        (fun c => ((resolveStyle sheet fb c).width.map Length.toPx).getD 100)
      = n.children.map
        (fun c => ((resolveStyle sheet fb c).width.map Length.toPx).getD 100) := by
    refine (map_eq_of_forall₂ _ _ ?_ hch).symm
    intro a b hab
    dsimp only
    rw [hab fb]
  have hmapH : n'.children.map
        (fun c => ((resolveStyle sheet fb c).height.map Length.toPx).getD 30)
      = n.children.map
        (fun c => ((resolveStyle sheet fb c).height.map Length.toPx).getD 30) := by
    refine (map_eq_of_forall₂ _ _ ?_ hch).symm
    intro a b hab
    dsimp only
    rw [hab fb]
  cases d with
  | Row =>
    show (if n'.children.isEmpty then (0:ℚ) else (n'.children.map
        (fun c => ((resolveStyle sheet fb c).width.map Length.toPx).getD 100)).foldl max 0)
      = (if n.children.isEmpty then (0:ℚ) else (n.children.map
        (fun c => ((resolveStyle sheet fb c).width.map Length.toPx).getD 100)).foldl max 0)
    rw [isEmpty_of_length_eq hlen, hmapW]
  | RowReverse =>
    show (if n'.children.isEmpty then (0:ℚ) else (n'.children.map
        (fun c => ((resolveStyle sheet fb c).width.map Length.toPx).getD 100)).foldl max 0)
      = (if n.children.isEmpty then (0:ℚ) else (n.children.map
        (fun c => ((resolveStyle sheet fb c).width.map Length.toPx).getD 100)).foldl max 0)
    rw [isEmpty_of_length_eq hlen, hmapW]
  | Column =>
    show (if n'.children.isEmpty then (0:ℚ) else (n'.children.map
        (fun c => ((resolveStyle sheet fb c).height.map Length.toPx).getD 30)).foldl max 0)
      = (if n.children.isEmpty then (0:ℚ) else (n.children.map
        (fun c => ((resolveStyle sheet fb c).height.map Length.toPx).getD 30)).foldl max 0)
    rw [isEmpty_of_length_eq hlen, hmapH]
  | ColumnReverse =>
    show (if n'.children.isEmpty then (0:ℚ) else (n'.children.map
        (fun c => ((resolveStyle sheet fb c).height.map Length.toPx).getD 30)).foldl max 0)
      = (if n.children.isEmpty then (0:ℚ) else (n.children.map
        (fun c => ((resolveStyle sheet fb c).height.map Length.toPx).getD 30)).foldl max 0)
    rw [isEmpty_of_length_eq hlen, hmapH]

theorem baseSizes_congr (sheet : Sheet) {n n' : Node}
    (h : ResolveEquiv sheet n n') (style : Style) (d : FlexDirection) :
    baseSizesForItem n' style d sheet = baseSizesForItem n style d sheet := by
  have hlen := h.2.2.1
  simp only [baseSizesForItem]
  rw [isEmpty_of_length_eq hlen, intrinsic_congr sheet h d style]

theorem collectItems_cons (sheet : Sheet) (cs : Style) (d : FlexDirection)
    (p : Nat × Node) (l : List (Nat × Node)) :
    collectItems sheet cs d (p :: l)
      = if isDroppedWhitespaceText p.2 then collectItems sheet cs d l
        else { nodeIdx := p.1, node := p.2, style := resolveStyle sheet cs p.2,
               base_main := (baseSizesForItem p.2 (resolveStyle sheet cs p.2) d sheet).1,
               base_cross := (baseSizesForItem p.2 (resolveStyle sheet cs p.2) d sheet).2,
               final_main := (baseSizesForItem p.2 (resolveStyle sheet cs p.2) d sheet).1,
               final_cross := (baseSizesForItem p.2 (resolveStyle sheet cs p.2) d sheet).2 }
          :: collectItems sheet cs d l := by
  simp only [collectItems, List.filterMap_cons]
  split_ifs <;> rfl

theorem collectItems_cong (sheet : Sheet) (cs : Style) (d : FlexDirection) :
    ∀ {l₁ l₂ : List (Nat × Node)},
      List.Forall₂ (fun p q => p.1 = q.1 ∧ ResolveEquiv sheet p.2 q.2) l₁ l₂ →
      List.Forall₂ ViewEq (collectItems sheet cs d l₁) (collectItems sheet cs d l₂) := by
  intro l₁ l₂ h
  induction h with
  | nil => exact List.Forall₂.nil
  | cons hab hrest ih =>
    rename_i a b as bs
    clear hrest
    obtain ⟨hidx, hre⟩ := hab
    rw [collectItems_cons, collectItems_cons, isDropped_congr sheet hre]
    by_cases hda : isDroppedWhitespaceText a.2
    · rw [if_pos hda, if_pos hda]
      exact ih
    · rw [if_neg hda, if_neg hda]
      refine List.Forall₂.cons ?_ ih
      have hstyle : resolveStyle sheet cs b.2 = resolveStyle sheet cs a.2 :=
        hre.2.2.2.1 cs
      have hsz : baseSizesForItem b.2 (resolveStyle sheet cs b.2) d sheet
          = baseSizesForItem a.2 (resolveStyle sheet cs a.2) d sheet := by
        rw [hstyle]
        exact baseSizes_congr sheet hre _ d
      exact ⟨hidx, hstyle.symm, by rw [hsz], by rw [hsz], by rw [hsz], by rw [hsz]⟩

theorem passItems_cong (sheet : Sheet) (cs : Style) {c c' : Node}
    (hch : List.Forall₂ (ResolveEquiv sheet) c.children c'.children) :
    List.Forall₂ ViewEq (passItems sheet cs c) (passItems sheet cs c') := by
  simp only [passItems, passSorted]
  apply collectItems_cong
  apply sortByOrder_cong (orderKey sheet cs)
  · intro p q hpq
    simp only [orderKey, (hpq.2).2.2.2.1 cs]
  · exact forall₂_enum hch

/-! ## C9: the two passes agree on every scalar parameter -/

theorem passFrame_congr (cs : Style) {c c' : Node} (h : c'.layout = c.layout) :
    passFrame cs c' = passFrame cs c := by
  simp only [passFrame, h]

theorem passAvailMain_congr (cs : Style) {c c' : Node} (h : c'.layout = c.layout) :
    passAvailMain cs c' = passAvailMain cs c := by
  simp only [passAvailMain, passFrame_congr cs h]

theorem passAvailCross_congr (cs : Style) {c c' : Node} (h : c'.layout = c.layout) :
    passAvailCross cs c' = passAvailCross cs c := by
  simp only [passAvailCross, passFrame_congr cs h]

theorem passLines_cong (sheet : Sheet) (cs : Style) {c c' : Node}
    (hlay : c'.layout = c.layout)
    (hch : List.Forall₂ (ResolveEquiv sheet) c.children c'.children) :
    List.Forall₂ (List.Forall₂ ViewEq)
      (passLines sheet cs c) (passLines sheet cs c') := by
  simp only [passLines, passAvailMain_congr cs hlay]
  exact formLines_cong _ _ _ (passItems_cong sheet cs hch)

theorem passSingleDefinite_cong (sheet : Sheet) (cs : Style) {c c' : Node}
    (hlay : c'.layout = c.layout)
    (hch : List.Forall₂ (ResolveEquiv sheet) c.children c'.children) :
    passSingleDefinite sheet cs c' = passSingleDefinite sheet cs c := by
  simp only [passSingleDefinite]
  rw [← forall₂_length (passLines_cong sheet cs hlay hch)]

theorem passFold_cong (sheet : Sheet) (fuel : Nat) (cs : Style) {c c' : Node}
    (hlay : c'.layout = c.layout)
    (hch : List.Forall₂ (ResolveEquiv sheet) c.children c'.children) :
    boundsView (passFold (layoutNode sheet fuel) sheet cs c').1
      = boundsView (passFold (layoutNode sheet fuel) sheet cs c).1 := by
  simp only [passFold, passAvailMain_congr cs hlay, passAvailCross_congr cs hlay,
    passFrame_congr cs hlay, passSingleDefinite_cong sheet cs hlay hch]
  exact (linesFold_cong sheet fuel (passDirection cs)
    (cs.align_items.getD AlignItems.Stretch)
    (cs.justify_content.getD JustifyContent.FlexStart) (passAvailMain cs c)
    (passAxisGaps cs).1 (passSingleDefinite sheet cs c) (passAvailCross cs c)
    (passFrame cs c).1 (passFrame cs c).2.1 (passAxisGaps cs).2
    (passLines_cong sheet cs hlay hch) ([], 0) ([], 0) rfl rfl).symm

/-! ## C9: the bounds view of repeated index-wise write-back -/

theorem map_bounds_set (l : List Node) (i : Nat) (v : Node) :
    (l.set i v).map (fun c => c.layout.bounds)
      = (l.map (fun c => c.layout.bounds)).set i v.layout.bounds := by
  induction l generalizing i with
  | nil => simp
  | cons x xs ih =>
    cases i with
    | zero => simp
    | succ j => simp [ih]

theorem map_bounds_updatesApply :
    ∀ (ups : List (Nat × Node)) (l : List Node),
      (updatesApply l ups).map (fun c => c.layout.bounds)
        = boundsSetFold (l.map (fun c => c.layout.bounds)) (boundsView ups) := by
  intro ups
  induction ups with
  | nil => intro l; rfl
  | cons u ups ih =>
    intro l
    have h1 : updatesApply l (u :: ups) = updatesApply (l.set u.1 u.2) ups := rfl
    have h2 : boundsSetFold (l.map (fun c => c.layout.bounds)) (boundsView (u :: ups))
        = boundsSetFold ((l.map (fun c => c.layout.bounds)).set u.1 u.2.layout.bounds)
          (boundsView ups) := rfl
    rw [h1, h2, ih, map_bounds_set]

theorem lastW_foldl (j : Nat) :
    ∀ (V : List (Nat × Rect)) (acc : Option Rect),
      V.foldl (fun a q => if q.1 = j then some q.2 else a) acc
        = (lastW V j).elim acc some := by
  intro V
  induction V with
  | nil => intro acc; rfl
  | cons q V ih =>
    intro acc
    simp only [List.foldl_cons]
    rw [ih]
    have hl : lastW (q :: V) j
        = (lastW V j).elim (if q.1 = j then some q.2 else none) some := by
      have h := ih (if q.1 = j then some q.2 else none)
      simp only [lastW, List.foldl_cons]
      exact h
    rw [hl]
    cases lastW V j with
    | none => by_cases hq : q.1 = j <;> simp [Option.elim, hq]
    | some s => simp [Option.elim]

theorem lastW_cons (j : Nat) (q : Nat × Rect) (V : List (Nat × Rect)) :
    lastW (q :: V) j
      = (lastW V j).elim (if q.1 = j then some q.2 else none) some := by
  have h := lastW_foldl j V (if q.1 = j then some q.2 else none)
  simp only [lastW, List.foldl_cons]
  exact h

theorem boundsSetFold_length (V : List (Nat × Rect)) :
    ∀ B : List Rect, (boundsSetFold B V).length = B.length := by
  induction V with
  | nil => intro B; rfl
  | cons q V ih =>
    intro B
    have h : boundsSetFold B (q :: V) = boundsSetFold (B.set q.1 q.2) V := rfl
    rw [h, ih, List.length_set]

theorem boundsSetFold_get (V : List (Nat × Rect)) :
    ∀ (B : List Rect) (j : Nat) (hj : j < B.length)
      (hj' : j < (boundsSetFold B V).length),
      (boundsSetFold B V).get ⟨j, hj'⟩ = (lastW V j).getD (B.get ⟨j, hj⟩) := by
  induction V with
  | nil => intro B j hj hj'; rfl
  | cons q V ih =>
    intro B j hj hj'
    have hjs : j < (B.set q.1 q.2).length := by rw [List.length_set]; exact hj
    show (boundsSetFold (B.set q.1 q.2) V).get ⟨j, hj'⟩
      = (lastW (q :: V) j).getD (B.get ⟨j, hj⟩)
    rw [ih (B.set q.1 q.2) j hjs hj']
    have hset : (B.set q.1 q.2).get ⟨j, hjs⟩
        = if q.1 = j then q.2 else B.get ⟨j, hj⟩ := by
      simp [List.get_eq_getElem, List.getElem_set]
    rw [hset, lastW_cons j q V]
    cases lastW V j with
    | none => by_cases hq : q.1 = j <;> simp [Option.elim, hq]
    | some s => simp [Option.elim]

theorem boundsSetFold_idem (V : List (Nat × Rect)) (B : List Rect) :
    boundsSetFold (boundsSetFold B V) V = boundsSetFold B V := by
  apply List.ext_get
  · rw [boundsSetFold_length, boundsSetFold_length]
  · intro j h1 h2
    have hjB : j < B.length := by
      rw [boundsSetFold_length] at h2
      exact h2
    rw [boundsSetFold_get V (boundsSetFold B V) j h2 h1,
      boundsSetFold_get V B j hjB h2]
    cases lastW V j <;> simp

/-- C9: running the layout pass twice in succession on the same container with
the same stylesheet and container style yields the same bounds for every child
as running it once — the second pass, reading the layout records (including the
cached resolved styles) the first pass wrote, recomputes identical positions
and sizes. Spec-modelled: the recursive `layout_node` callback (`layout.rs`,
not in the provided sources) is `layoutNode`, fuel-bounded per §6. -/
theorem layout_idempotent (fuel : Nat) (sheet : Sheet) (cs : Style)
    (container : Node) :
    ((layoutFlexChildren fuel sheet cs
        (layoutFlexChildren fuel sheet cs container)).children.map
      (fun c => c.layout.bounds))
    = ((layoutFlexChildren fuel sheet cs container).children.map
      (fun c => c.layout.bounds)) := by
  have hrec : ∀ n x y, ResolveEquiv sheet n (layoutNode sheet fuel n x y) :=
    layoutNode_re sheet fuel
  have hch : List.Forall₂ (ResolveEquiv sheet) container.children
      (layoutFlexChildren fuel sheet cs container).children := by
    simp only [layoutFlexChildren]
    exact pass_re sheet (layoutNode sheet fuel) hrec cs container
  have hlay : (layoutFlexChildren fuel sheet cs container).layout
      = container.layout := by
    simp only [layoutFlexChildren]
    exact layoutFlexChildrenWith_layout _ _ _ _
  by_cases h₀ : (passItems sheet cs container).isEmpty
  · have he : layoutFlexChildren fuel sheet cs container = container := by
      simp only [layoutFlexChildren]
      exact pass_collect_empty _ _ _ _ h₀
    rw [he, he]
  · have hitems := passItems_cong sheet cs hch
    have h₀' : ¬ (passItems sheet cs
        (layoutFlexChildren fuel sheet cs container)).isEmpty = true := by
      rw [← forall₂_isEmpty hitems]
      exact h₀
    have hform : ∀ c : Node, ¬ (passItems sheet cs c).isEmpty = true →
        layoutFlexChildren fuel sheet cs c
          = c.withChildren (updatesApply c.children
              (passFold (layoutNode sheet fuel) sheet cs c).1) := by
      intro c hc
      show layoutFlexChildrenWith (layoutNode sheet fuel) sheet cs c = _
      rw [layoutFlexChildrenWith_eq, if_neg hc]
    have houter := hform (layoutFlexChildren fuel sheet cs container) h₀'
    have hinner := hform container h₀
    have hu : boundsView (passFold (layoutNode sheet fuel) sheet cs
          (layoutFlexChildren fuel sheet cs container)).1
        = boundsView (passFold (layoutNode sheet fuel) sheet cs container).1 :=
      passFold_cong sheet fuel cs hlay hch
    have hchild : (layoutFlexChildren fuel sheet cs container).children
        = updatesApply container.children
          (passFold (layoutNode sheet fuel) sheet cs container).1 := by
      rw [hinner, Node.withChildren_children]
    rw [houter, Node.withChildren_children, map_bounds_updatesApply, hu, hchild,
      map_bounds_updatesApply]
    exact boundsSetFold_idem _ _

end Theorems

end Lolite
